import Mathlib

/-!
# Verification of the smartcrop content-aware cropping engine

Shallow embedding of the `smartcrop` Go package (the current analyzer in the
repository: `Config`, `smartcropAnalyzer`, `FindBestCrop`, `FindAllCrops`,
`analyse`, `crops`, `score`, `importance`, `findTopCrop`, the three feature
extractors and their numeric helpers).

Modelling conventions:
* Go `float64` values are modelled as exact rationals (`ℚ`); `math.Sqrt` is an
  explicit function parameter `sqrtQ : ℚ → ℚ` of every definition that uses it,
  standing for the square-root routine.  Claims about code paths that do not
  depend on square-root values are proved for every `sqrtQ`.
* Go `int` is `ℤ`, pixel channels are `ℕ` (8-bit samples `0..255`).
* `image.Image` is a width/height pair with a pixel function; `RGBAAt` returns
  the zero pixel out of bounds and `SetRGBA` ignores out-of-bounds writes,
  exactly as in Go's `image` package.
* The external resizer and the external face detector (gocv) are opaque
  function parameters; the entry points call them exactly where the source
  does.
* The Go `for` loops of the candidate generator run forever when their step is
  not positive; the embedding's loop combinators return `[]` in that case and
  every theorem that depends on loop contents carries a positivity hypothesis.
-/

namespace Smartcrop

/-- An 8-bit RGBA sample, as in Go's `color.RGBA`. -/
structure RGBA where
  r : ℕ
  g : ℕ
  b : ℕ
  a : ℕ
  deriving Repr, DecidableEq

/-- The zero `color.RGBA` value returned by out-of-bounds reads. -/
def RGBA.zero : RGBA := ⟨0, 0, 0, 0⟩

/-- An RGBA image: bounds plus a pixel function (model of `*image.RGBA`
with bounds `(0,0)-(width,height)`). -/
structure Image where
  width : ℕ
  height : ℕ
  pix : ℕ → ℕ → RGBA

/-- `img.RGBAAt x y`: Go returns the zero color outside the bounds. -/
def rgbaAt (img : Image) (x y : ℕ) : RGBA :=
  if x < img.width ∧ y < img.height then img.pix x y else RGBA.zero

/-- `image.NewRGBA`: a freshly allocated, all-zero buffer. -/
def newRGBA (w h : ℕ) : Image := ⟨w, h, fun _ _ => RGBA.zero⟩

/-- `image.Point`. -/
structure Point where
  x : ℤ
  y : ℤ
  deriving Repr, DecidableEq

/-- `image.Rectangle`, half-open on the max edge. -/
structure Rectangle where
  min : Point
  max : Point
  deriving Repr, DecidableEq

/-- The zero-value `image.Rectangle{}`. -/
def Rectangle.zero : Rectangle := ⟨⟨0, 0⟩, ⟨0, 0⟩⟩

/-- `r.Dx()`. -/
def Rectangle.dx (r : Rectangle) : ℤ := r.max.x - r.min.x

/-- `r.Dy()`. -/
def Rectangle.dy (r : Rectangle) : ℤ := r.max.y - r.min.y

/-- `r.Empty()` from Go's image package. -/
def Rectangle.empty (r : Rectangle) : Prop :=
  r.min.x ≥ r.max.x ∨ r.min.y ≥ r.max.y

instance (r : Rectangle) : Decidable r.empty := by
  unfold Rectangle.empty; infer_instance

/-- `r.Canon()` from Go's image package: swap the coordinates of an axis when
they are reversed.  The source performs the x-swap and then the y-swap in
sequence; the swaps touch disjoint fields, so they are written
componentwise here. -/
def Rectangle.canon (r : Rectangle) : Rectangle :=
  { min := ⟨if r.max.x < r.min.x then r.max.x else r.min.x,
      if r.max.y < r.min.y then r.max.y else r.min.y⟩
    max := ⟨if r.max.x < r.min.x then r.min.x else r.max.x,
      if r.max.y < r.min.y then r.min.y else r.max.y⟩ }

/-- `r.In(s)` from Go's image package: an empty rectangle is in every
rectangle. -/
def Rectangle.goIn (r s : Rectangle) : Prop :=
  r.empty ∨
    (s.min.x ≤ r.min.x ∧ r.max.x ≤ s.max.x ∧ s.min.y ≤ r.min.y ∧ r.max.y ≤ s.max.y)

instance (r s : Rectangle) : Decidable (r.goIn s) := by
  unfold Rectangle.goIn; infer_instance

/-- `image.Rect(x0, y0, x1, y1)`: canonicalizes by swapping per axis. -/
def goRect (x0 y0 x1 y1 : ℤ) : Rectangle :=
  let p := if x0 > x1 then (x1, x0) else (x0, x1)
  let q := if y0 > y1 then (y1, y0) else (y0, y1)
  ⟨⟨p.1, q.1⟩, ⟨p.2, q.2⟩⟩

/-- `Score` (current analyzer): the four accumulators plus the derived total. -/
structure Score where
  detail : ℚ
  saturation : ℚ
  skin : ℚ
  face : ℚ
  total : ℚ
  deriving Repr, DecidableEq

/-- The zero `Score` value. -/
def Score.zero : Score := ⟨0, 0, 0, 0, 0⟩

/-- `Crop`: a rectangle plus its score. -/
structure Crop where
  rect : Rectangle
  score : Score
  deriving Repr, DecidableEq

/-- The zero-value `Crop` (`var topCrop Crop`). -/
def Crop.zero : Crop := ⟨Rectangle.zero, Score.zero⟩

/-- `Config` from the repository's configuration file. -/
structure Config where
  DetailWeight : ℚ
  SkinBias : ℚ
  SkinBrightnessMin : ℚ
  SkinBrightnessMax : ℚ
  SkinThreshold : ℚ
  SkinWeight : ℚ
  SaturationBrightnessMin : ℚ
  SaturationBrightnessMax : ℚ
  SaturationThreshold : ℚ
  SaturationBias : ℚ
  SaturationWeight : ℚ
  ScoreDownSample : ℤ
  Step : ℤ
  ScaleStep : ℚ
  MinScale : ℚ
  MaxScale : ℚ
  EdgeRadius : ℚ
  EdgeWeight : ℚ
  OutsideImportance : ℚ
  RuleOfThirds : Bool
  Prescale : Bool
  PrescaleMin : ℚ
  FaceDetectEnabled : Bool

/-- The package's error values (`ErrInvalidDimensions`). -/
inductive Err where
  | invalidDimensions
  deriving Repr, DecidableEq

/-! ## Numeric helpers translated from the source -/

/-- Go's float-to-int conversion: truncation toward zero. -/
def goTrunc (q : ℚ) : ℤ := if q < 0 then ⌈q⌉ else ⌊q⌋

/-- `chop`: `math.Ceil` for negative arguments, `math.Floor` otherwise
(truncation toward zero, kept as a rational). -/
def chop (x : ℚ) : ℚ := (goTrunc x : ℚ)

/-- `bounds`: clamp to `[0, 255]`. -/
def bounds (l : ℚ) : ℚ := min (max l 0) 255

/-- Go's `uint8(f)` conversion applied to a clamped value in `[0,255]`:
truncation. -/
def goUint8 (q : ℚ) : ℕ := (⌊q⌋).toNat

/-- `math.Mod(x, y)`: remainder with the sign of `x` (`x - y·trunc(x/y)`). -/
def goMod (x y : ℚ) : ℚ := x - y * (goTrunc (x / y) : ℚ)

/-- `thirds`: the rule-of-thirds alignment bonus shape. -/
def thirds (x : ℚ) : ℚ :=
  let x' := (goMod (x - 1/3 + 1) 2 * (1/2) - 1/2) * 16
  max (1 - x' * x') 0

/-- `cie`: the perceptual luma transform
`0.5126·B + 0.7152·G + 0.0722·R`. -/
def cie (c : RGBA) : ℚ :=
  5126/10000 * (c.b : ℚ) + 7152/10000 * (c.g : ℚ) + 722/10000 * (c.r : ℚ)

/-- The reference skin-tone unit vector `skinColor`. -/
def skinColor : Fin 3 → ℚ
  | 0 => 78/100
  | 1 => 57/100
  | 2 => 44/100

/-- `skinCol`: one minus the distance of the normalized pixel color from the
reference skin tone.  `sqrtQ` stands for `math.Sqrt`. -/
def skinCol (sqrtQ : ℚ → ℚ) (c : RGBA) : ℚ :=
  let r8 : ℚ := c.r
  let g8 : ℚ := c.g
  let b8 : ℚ := c.b
  let mag := sqrtQ (r8 * r8 + g8 * g8 + b8 * b8)
  let rd := r8 / mag - skinColor 0
  let gd := g8 / mag - skinColor 1
  let bd := b8 / mag - skinColor 2
  let d := sqrtQ (rd * rd + gd * gd + bd * bd)
  1 - d

/-- `saturation`: HSL-style saturation from the max/min channel values
(the source starts its running max at `uint8(0)` and its running min at
`uint8(255)`). -/
def saturationOf (c : RGBA) : ℚ :=
  let cMax := max 0 (max c.r (max c.g c.b))
  let cMin := min 255 (min c.r (min c.g c.b))
  if cMax = cMin then 0
  else
    let maximum : ℚ := (cMax : ℚ) / 255
    let minimum : ℚ := (cMin : ℚ) / 255
    let l := (maximum + minimum) / 2
    let d := maximum - minimum
    if l > 1/2 then d / (2 - maximum - minimum) else d / (maximum + minimum)

/-! ## Loop combinators

The candidate generator and the scoring loop are Go `for` loops; we model them
as list-producing recursions.  Each guard carries the positivity of the step:
with a non-positive step the Go loop would not terminate, and the model
returns `[]` there. -/

/-- `for scale := s; scale >= rms; scale -= ss` collecting the loop variable. -/
def loopScales (s rms ss : ℚ) : List ℚ :=
  if h : 0 < ss ∧ rms ≤ s then
    s :: loopScales (s - ss) rms ss
  else []
  termination_by (⌊(s - rms) / ss⌋ + 1).toNat
  decreasing_by
    have hss := h.1
    have hrs := h.2
    have hq : (0:ℚ) ≤ (s - rms) / ss := div_nonneg (by linarith) hss.le
    have hf : 0 ≤ ⌊(s - rms) / ss⌋ := Int.floor_nonneg.mpr hq
    have he : (s - ss - rms) / ss = (s - rms) / ss - 1 := by
      field_simp
      ring
    rw [he, Int.floor_sub_one]
    omega

/-- `for x := x0; float64(x)+c <= limit; x += st` collecting the loop
variable. -/
def loopPos (x0 : ℤ) (limit c : ℚ) (st : ℤ) : List ℤ :=
  if h : 0 < st ∧ (x0 : ℚ) + c ≤ limit then
    x0 :: loopPos (x0 + st) limit c st
  else []
  termination_by (⌊limit - c - (x0 : ℚ)⌋ + 1).toNat
  decreasing_by
    have hst := h.1
    have hx := h.2
    have hq : (0:ℚ) ≤ limit - c - (x0 : ℚ) := by linarith
    have hf : 0 ≤ ⌊limit - c - (x0 : ℚ)⌋ := Int.floor_nonneg.mpr hq
    have hst1 : (1:ℤ) ≤ st := hst
    have he : limit - c - ((x0 : ℤ) + st : ℤ) = (limit - c - (x0 : ℚ)) - (st : ℤ) := by
      push_cast
      ring
    rw [he, Int.floor_sub_int]
    omega

/-- Closed form of the scale loop: the values `s - k·ss` for
`k < ⌊(s - rms)/ss⌋ + 1`. -/
theorem loopScales_eq_range (s rms ss : ℚ) (hss : 0 < ss) :
    loopScales s rms ss =
      (List.range (⌊(s - rms) / ss⌋ + 1).toNat).map (fun k : ℕ => s - (k : ℚ) * ss) := by
  generalize hn : (⌊(s - rms) / ss⌋ + 1).toNat = n
  induction n generalizing s with
  | zero =>
      rw [loopScales]
      rw [dif_neg]
      · simp
      · rintro ⟨-, hrs⟩
        have hq : (0:ℚ) ≤ (s - rms) / ss := div_nonneg (by linarith) hss.le
        have hf : 0 ≤ ⌊(s - rms) / ss⌋ := Int.floor_nonneg.mpr hq
        omega
  | succ n ih =>
      have hfl : ⌊(s - rms) / ss⌋ = n := by omega
      have hq : (0:ℚ) ≤ (s - rms) / ss := by
        have : (0:ℤ) ≤ ⌊(s - rms) / ss⌋ := by omega
        by_contra hneg
        push_neg at hneg
        have : ⌊(s - rms) / ss⌋ < 0 := Int.floor_lt.mpr (by exact_mod_cast hneg)
        omega
      have hrs : rms ≤ s := by
        have := (div_nonneg_iff.mp hq).resolve_right (fun ⟨_, h2⟩ => absurd hss (by
          intro h3; exact absurd (lt_of_lt_of_le h3 h2) (lt_irrefl 0)))
        linarith [this.1]
      rw [loopScales, dif_pos ⟨hss, hrs⟩]
      have hcount : (⌊(s - ss - rms) / ss⌋ + 1).toNat = n := by
        have he : (s - ss - rms) / ss = (s - rms) / ss - 1 := by
          field_simp
          ring
        rw [he, Int.floor_sub_one]
        omega
      rw [List.range_succ_eq_map, List.map_cons, List.map_map, ih (s - ss) hcount]
      congr 1
      · push_cast
        ring
      · apply List.map_congr_left
        intro k _
        simp only [Function.comp_apply]
        push_cast
        ring

/-- Closed form of a position loop: the values `x0 + k·st` for
`k < ⌊(limit - c - x0)/st⌋ + 1`. -/
theorem loopPos_eq_range (x0 : ℤ) (limit c : ℚ) (st : ℤ) (hst : 0 < st) :
    loopPos x0 limit c st =
      (List.range (⌊(limit - c - (x0 : ℚ)) / (st : ℚ)⌋ + 1).toNat).map
        (fun k : ℕ => x0 + (k : ℤ) * st) := by
  have hstq : (0:ℚ) < (st : ℚ) := by exact_mod_cast hst
  generalize hn : (⌊(limit - c - (x0 : ℚ)) / (st : ℚ)⌋ + 1).toNat = n
  induction n generalizing x0 with
  | zero =>
      rw [loopPos, dif_neg]
      · simp
      · rintro ⟨-, hx⟩
        have hq : (0:ℚ) ≤ (limit - c - (x0 : ℚ)) / (st : ℚ) :=
          div_nonneg (by linarith) hstq.le
        have hf : 0 ≤ ⌊(limit - c - (x0 : ℚ)) / (st : ℚ)⌋ := Int.floor_nonneg.mpr hq
        omega
  | succ n ih =>
      have hfl : ⌊(limit - c - (x0 : ℚ)) / (st : ℚ)⌋ = n := by omega
      have hq : (0:ℚ) ≤ (limit - c - (x0 : ℚ)) / (st : ℚ) := by
        by_contra hneg
        push_neg at hneg
        have : ⌊(limit - c - (x0 : ℚ)) / (st : ℚ)⌋ < 0 := Int.floor_lt.mpr (by exact_mod_cast hneg)
        omega
      have hx : (x0 : ℚ) + c ≤ limit := by
        have hnum : (0:ℚ) ≤ limit - c - (x0 : ℚ) := by
          by_contra hneg
          push_neg at hneg
          have : (limit - c - (x0 : ℚ)) / (st : ℚ) < 0 := div_neg_of_neg_of_pos hneg hstq
          linarith
        linarith
      rw [loopPos, dif_pos ⟨hst, hx⟩]
      have hcount : (⌊(limit - c - ((x0 + st : ℤ) : ℚ)) / (st : ℚ)⌋ + 1).toNat = n := by
        have he : (limit - c - ((x0 + st : ℤ) : ℚ)) / (st : ℚ) =
            (limit - c - (x0 : ℚ)) / (st : ℚ) - 1 := by
          push_cast
          field_simp
          ring
        rw [he, Int.floor_sub_one]
        omega
      rw [List.range_succ_eq_map, List.map_cons, List.map_map, ih (x0 + st) hcount]
      congr 1
      · push_cast
        ring
      · apply List.map_congr_left
        intro k _
        simp only [Function.comp_apply]
        push_cast
        ring

/-- Every value emitted by the scale loop lies in `[rms, s]`. -/
theorem loopScales_mem (s rms ss v : ℚ) :
    v ∈ loopScales s rms ss → rms ≤ v ∧ v ≤ s := by
  induction s, rms, ss using loopScales.induct with
  | case1 s rms ss h ih =>
      intro hv
      rw [loopScales, dif_pos h] at hv
      rcases List.mem_cons.mp hv with rfl | hv
      · exact ⟨h.2, le_refl _⟩
      · have := ih hv
        exact ⟨this.1, by linarith [this.2, h.1]⟩
  | case2 s rms ss h =>
      intro hv
      rw [loopScales, dif_neg h] at hv
      simp at hv

/-- Every value emitted by a position loop satisfies the loop bound and is at
least the start value. -/
theorem loopPos_mem (x0 : ℤ) (limit c : ℚ) (st v : ℤ) :
    v ∈ loopPos x0 limit c st → x0 ≤ v ∧ (v : ℚ) + c ≤ limit := by
  induction x0, limit, c, st using loopPos.induct with
  | case1 x0 limit c st h ih =>
      intro hv
      rw [loopPos, dif_pos h] at hv
      rcases List.mem_cons.mp hv with rfl | hv
      · exact ⟨le_refl _, h.2⟩
      · have := ih hv
        exact ⟨by linarith [this.1, h.1], this.2⟩
  | case2 x0 limit c st h =>
      intro hv
      rw [loopPos, dif_neg h] at hv
      simp at hv

/-! ## Feature extractors -/

/-- `makeCies`: the auxiliary luma array, row-major (`cies[y*width+x]`). -/
def makeCies (img : Image) : List ℚ :=
  (List.range img.height).flatMap (fun y =>
    (List.range img.width).map (fun x => cie (rgbaAt img x y)))

/-- `edgeDetect`: writes the clamped 4-neighbour Laplacian of the luma into
the green channel; border pixels get 0; red and blue are written as 0 and
alpha as 255.  Reads the luma through the `makeCies` array exactly as the
source does. -/
def edgeDetect (i o : Image) : Image :=
  let w := i.width
  let cies := makeCies i
  { o with pix := fun x y =>
      if x < i.width ∧ y < i.height ∧ x < o.width ∧ y < o.height then
        let lightness : ℚ :=
          if x = 0 ∨ x ≥ i.width - 1 ∨ y = 0 ∨ y ≥ i.height - 1 then 0
          else
            (cies.getD (y * w + x) 0) * 4 -
              cies.getD (x + (y - 1) * w) 0 -
              cies.getD (x - 1 + y * w) 0 -
              cies.getD (x + 1 + y * w) 0 -
              cies.getD (x + (y + 1) * w) 0
        ⟨0, goUint8 (bounds lightness), 0, 255⟩
      else o.pix x y }

/-- `skinDetect`: writes the gated, rescaled skin likelihood into the red
channel, keeps green and blue, sets alpha to 255. -/
def skinDetect (sqrtQ : ℚ → ℚ) (cfg : Config) (i o : Image) : Image :=
  { o with pix := fun x y =>
      if x < i.width ∧ y < i.height ∧ x < o.width ∧ y < o.height then
        let lightness := cie (rgbaAt i x y) / 255
        let skin := skinCol sqrtQ (rgbaAt i x y)
        let c := rgbaAt o x y
        if skin > cfg.SkinThreshold ∧ lightness ≥ cfg.SkinBrightnessMin ∧
            lightness ≤ cfg.SkinBrightnessMax then
          ⟨goUint8 (bounds ((skin - cfg.SkinThreshold) * (255 / (1 - cfg.SkinThreshold)))),
            c.g, c.b, 255⟩
        else ⟨0, c.g, c.b, 255⟩
      else o.pix x y }

/-- `saturationDetect`: writes the gated, rescaled saturation into the blue
channel, keeps red and green, sets alpha to 255. -/
def saturationDetect (cfg : Config) (i o : Image) : Image :=
  { o with pix := fun x y =>
      if x < i.width ∧ y < i.height ∧ x < o.width ∧ y < o.height then
        let lightness := cie (rgbaAt i x y) / 255
        let sat := saturationOf (rgbaAt i x y)
        let c := rgbaAt o x y
        if sat > cfg.SaturationThreshold ∧ lightness ≥ cfg.SaturationBrightnessMin ∧
            lightness ≤ cfg.SaturationBrightnessMax then
          ⟨c.r, c.g,
            goUint8 (bounds ((sat - cfg.SaturationThreshold) *
              (255 / (1 - cfg.SaturationThreshold)))), 255⟩
        else ⟨c.r, c.g, 0, 255⟩
      else o.pix x y }

/-! ## Importance, scoring, candidate generation, selection -/

/-- `importance`: positional weighting of a pixel relative to a candidate. -/
def importance (sqrtQ : ℚ → ℚ) (cfg : Config) (crop : Crop) (x y : ℤ) : ℚ :=
  if crop.rect.min.x > x ∨ x ≥ crop.rect.max.x ∨
      crop.rect.min.y > y ∨ y ≥ crop.rect.max.y then
    cfg.OutsideImportance
  else
    let xf : ℚ := ((x - crop.rect.min.x : ℤ) : ℚ) / (crop.rect.dx : ℚ)
    let yf : ℚ := ((y - crop.rect.min.y : ℤ) : ℚ) / (crop.rect.dy : ℚ)
    let px := |1/2 - xf| * 2
    let py := |1/2 - yf| * 2
    let dx := max (px - 1 + cfg.EdgeRadius) 0
    let dy := max (py - 1 + cfg.EdgeRadius) 0
    let d := (dx * dx + dy * dy) * cfg.EdgeWeight
    let s0 := 141/100 - sqrtQ (px * px + py * py)
    let s1 := if cfg.RuleOfThirds then
        s0 + (max 0 (s0 + d + 1/2) * (12/10)) * (thirds px + thirds py)
      else s0
    s1 + d

/-- One step of the feature-sampling accumulation in `score` (the body of the
downsampled double loop). -/
def scoreStep (sqrtQ : ℚ → ℚ) (cfg : Config) (output : Image) (crop : Crop)
    (sc : Score) (p : ℤ × ℤ) : Score :=
  let c := rgbaAt output p.1.toNat p.2.toNat
  let r8 : ℚ := c.r
  let g8 : ℚ := c.g
  let b8 : ℚ := c.b
  let imp := importance sqrtQ cfg crop p.1 p.2
  let det := g8 / 255
  { sc with
    skin := sc.skin + r8 / 255 * (det + cfg.SkinBias) * imp
    detail := sc.detail + det * imp
    saturation := sc.saturation + b8 / 255 * (det + cfg.SaturationBias) * imp }

/-- `score`: the sampled feature accumulation, the face-containment bonus and
the derived total, exactly in the source's order of operations. -/
def score (sqrtQ : ℚ → ℚ) (cfg : Config) (output : Image) (crop : Crop)
    (faceRects : List Rectangle) : Score :=
  let width := output.width
  let height := output.height
  let pts : List (ℤ × ℤ) :=
    (loopPos 0 ((height : ℚ) - (cfg.ScoreDownSample : ℚ)) 0 cfg.ScoreDownSample).flatMap
      (fun y =>
        (loopPos 0 ((width : ℚ) - (cfg.ScoreDownSample : ℚ)) 0 cfg.ScoreDownSample).map
          (fun x => (x, y)))
  let base := pts.foldl (scoreStep sqrtQ cfg output crop) Score.zero
  let withFace :=
    if cfg.FaceDetectEnabled then
      let cropRes := crop.rect.dx * crop.rect.dy
      faceRects.foldl
        (fun sc r =>
          if r.goIn crop.rect then
            { sc with face := sc.face + ((r.dx * r.dy : ℤ) : ℚ) / (cropRes : ℚ) }
          else sc)
        base
    else base
  let t1 := withFace.detail * cfg.DetailWeight + withFace.skin * cfg.SkinWeight +
    withFace.saturation * cfg.SaturationWeight
  let t2 := t1 / ((crop.rect.dx : ℚ) * (crop.rect.dy : ℚ))
  { withFace with total := t2 + withFace.face }

/-- `crops`: the candidate generator — nested sweep over scale (descending),
then y, then x.  A zero crop dimension defaults to the smaller image
dimension. -/
def crops (i : Image) (cropWidth cropHeight realMinScale : ℚ) (cfg : Config) :
    List Crop :=
  let width := i.width
  let height := i.height
  let minDimension : ℚ := min (width : ℚ) (height : ℚ)
  let cropW := if cropWidth ≠ 0 then cropWidth else minDimension
  let cropH := if cropHeight ≠ 0 then cropHeight else minDimension
  (loopScales cfg.MaxScale realMinScale cfg.ScaleStep).flatMap (fun scale =>
    (loopPos 0 (height : ℚ) (cropH * scale) cfg.Step).flatMap (fun y =>
      (loopPos 0 (width : ℚ) (cropW * scale) cfg.Step).map (fun x =>
        Crop.mk (goRect x y (x + goTrunc (cropW * scale)) (y + goTrunc (cropH * scale)))
          Score.zero)))

/-- The accumulator loop of `findTopCrop`. -/
def findTopCropAux (top : Crop) (topScore : ℚ) : List Crop → Crop
  | [] => top
  | c :: rest =>
      if topScore < c.score.total then findTopCropAux c c.score.total rest
      else findTopCropAux top topScore rest

/-- `findTopCrop`: best-of selection starting from the zero crop and the
sentinel score `-1.0`, replacing only on a strictly greater total. -/
def findTopCrop (cs : List Crop) : Crop :=
  findTopCropAux Crop.zero (-1) cs

/-! ## Preprocessing and entry points -/

/-- `math.Min(float64(Dx)/float64(width), float64(Dy)/float64(height))`.
In Go, dividing a positive float by zero yields `+Inf`, and `math.Min` with
`+Inf` selects the other operand; the zero-divisor cases are resolved
accordingly (the entry points guarantee `width` and `height` are not both
zero). -/
def scaleFor (img : Image) (w h : ℤ) : ℚ :=
  if w = 0 then (img.height : ℚ) / (h : ℚ)
  else if h = 0 then (img.width : ℚ) / (w : ℚ)
  else min ((img.width : ℚ) / (w : ℚ)) ((img.height : ℚ) / (h : ℚ))

/-- The values computed by `preprocessForAnalysis`. -/
structure PreprocessResult where
  rgba : Image
  cropWidth : ℚ
  cropHeight : ℚ
  realMinScale : ℚ
  pf : ℚ

/-- `preprocessForAnalysis`: optional prescale via the external resizer, the
crop dimensions in the working space, the minimum candidate scale, and the
prescale factor.  `toRGBA` is the identity in this model (images are already
pixel grids). -/
def preprocessForAnalysis (resizer : Image → ℕ → ℕ → Image) (cfg : Config)
    (img : Image) (w h : ℤ) : PreprocessResult :=
  let scale := scaleFor img w h
  let pf : ℚ :=
    if cfg.Prescale then
      let f := cfg.PrescaleMin / min (img.width : ℚ) (img.height : ℚ)
      if f < 1 then f else 1
    else 1
  let rgba :=
    if cfg.Prescale then resizer img (goTrunc ((img.width : ℚ) * pf)).toNat 0
    else img
  { rgba := rgba
    cropWidth := chop ((w : ℚ) * scale * pf)
    cropHeight := chop ((h : ℚ) * scale * pf)
    realMinScale := min cfg.MaxScale (max (1 / scale) cfg.MinScale)
    pf := pf }

/-- `analyse`: builds the feature buffer by the three extractor passes,
fetches face boxes from the external detector when enabled, generates the
candidates and fills in each candidate's score. -/
def analyseScored (sqrtQ : ℚ → ℚ) (faceDet : Image → List Rectangle)
    (cfg : Config) (img : Image) (cropWidth cropHeight realMinScale : ℚ) :
    List Crop × Image :=
  let o0 := newRGBA img.width img.height
  let o1 := edgeDetect img o0
  let o2 := skinDetect sqrtQ cfg img o1
  let o3 := saturationDetect cfg img o2
  let faceRects := if cfg.FaceDetectEnabled then faceDet img else []
  let cs := crops o3 cropWidth cropHeight realMinScale cfg
  (cs.map (fun c => { c with score := score sqrtQ cfg o3 c faceRects }), o3)

/-- The per-coordinate inverse-prescale transform
`int(chop(float64(coord) / prescalefactor))`. -/
def rescaleRect (pf : ℚ) (r : Rectangle) : Rectangle :=
  ⟨⟨goTrunc ((r.min.x : ℚ) / pf), goTrunc ((r.min.y : ℚ) / pf)⟩,
    ⟨goTrunc ((r.max.x : ℚ) / pf), goTrunc ((r.max.y : ℚ) / pf)⟩⟩

/-- `FindBestCrop`: guard, preprocess, analyse, select, inverse-prescale the
winner, canonicalize.  The Go method returns `(image.Rectangle, error)`;
the model pairs the rectangle with an optional error. -/
def findBestCrop (sqrtQ : ℚ → ℚ) (resizer : Image → ℕ → ℕ → Image)
    (faceDet : Image → List Rectangle) (cfg : Config) (img : Image) (w h : ℤ) :
    Rectangle × Option Err :=
  if w = 0 ∧ h = 0 then (Rectangle.zero, some Err.invalidDimensions)
  else
    let pre := preprocessForAnalysis resizer cfg img w h
    let res := analyseScored sqrtQ faceDet cfg pre.rgba pre.cropWidth
      pre.cropHeight pre.realMinScale
    let topCrop := findTopCrop res.1
    let rect := if cfg.Prescale then rescaleRect pre.pf topCrop.rect else topCrop.rect
    (rect.canon, none)

/-- `FindAllCrops`: guard, preprocess, analyse, inverse-prescale every
candidate.  The source's loop assigns `crop.Rectangle = crop.Canon()` to the
iteration copy of the slice element, so no canonicalization reaches the
returned slice; only the prescale division mutates `allCrops[i]`. -/
def findAllCrops (sqrtQ : ℚ → ℚ) (resizer : Image → ℕ → ℕ → Image)
    (faceDet : Image → List Rectangle) (cfg : Config) (img : Image) (w h : ℤ) :
    List Crop × Option Err :=
  if w = 0 ∧ h = 0 then ([], some Err.invalidDimensions)
  else
    let pre := preprocessForAnalysis resizer cfg img w h
    let res := analyseScored sqrtQ faceDet cfg pre.rgba pre.cropWidth
      pre.cropHeight pre.realMinScale
    (res.1.map (fun c =>
      if cfg.Prescale then { c with rect := rescaleRect pre.pf c.rect } else c), none)

/-! ## Spec-side definitions used to state claims -/

/-- Containment of `r` entirely within `s`, as the spec words it (for
canonical, non-empty rectangles this coincides with Go's `r.In(s)`). -/
def containedIn (r s : Rectangle) : Bool :=
  decide (s.min.x ≤ r.min.x ∧ r.max.x ≤ s.max.x ∧ s.min.y ≤ r.min.y ∧ r.max.y ≤ s.max.y)

/-- The candidate enumeration exactly as §4.4 of the spec words it: an outer
sweep over the scales `maxScale - k·scaleStep ≥ realMinScale` in descending
order, a middle sweep over `y = j·step` while `y + cropHeight·scale ≤ height`,
an inner sweep over `x = l·step` analogously for the width, one rectangle
`[x, y, x+⌊cropW·scale⌋, y+⌊cropH·scale⌋)` per `(scale, x, y)`, and a zero
crop dimension defaulting to the smaller image dimension. -/
def cropsSpec (i : Image) (cropWidth cropHeight realMinScale : ℚ) (cfg : Config) :
    List Crop :=
  let minDimension : ℚ := min (i.width : ℚ) (i.height : ℚ)
  let cropW := if cropWidth ≠ 0 then cropWidth else minDimension
  let cropH := if cropHeight ≠ 0 then cropHeight else minDimension
  let nScales := (⌊(cfg.MaxScale - realMinScale) / cfg.ScaleStep⌋ + 1).toNat
  (List.range nScales).flatMap (fun (k : ℕ) =>
    let scale := cfg.MaxScale - (k : ℚ) * cfg.ScaleStep
    let nY := (⌊((i.height : ℚ) - cropH * scale) / (cfg.Step : ℚ)⌋ + 1).toNat
    (List.range nY).flatMap (fun (j : ℕ) =>
      let y : ℤ := (j : ℤ) * cfg.Step
      let nX := (⌊((i.width : ℚ) - cropW * scale) / (cfg.Step : ℚ)⌋ + 1).toNat
      (List.range nX).map (fun (l : ℕ) =>
        let x : ℤ := (l : ℤ) * cfg.Step
        Crop.mk ⟨⟨x, y⟩, ⟨x + ⌊cropW * scale⌋, y + ⌊cropH * scale⌋⟩⟩ Score.zero)))

/-- The value `edgeDetect` computes for the green channel of pixel `(x, y)`:
a function of the source buffer alone. -/
def edgeValue (i : Image) (x y : ℕ) : ℕ :=
  let w := i.width
  let cies := makeCies i
  let lightness : ℚ :=
    if x = 0 ∨ x ≥ i.width - 1 ∨ y = 0 ∨ y ≥ i.height - 1 then 0
    else
      (cies.getD (y * w + x) 0) * 4 -
        cies.getD (x + (y - 1) * w) 0 -
        cies.getD (x - 1 + y * w) 0 -
        cies.getD (x + 1 + y * w) 0 -
        cies.getD (x + (y + 1) * w) 0
  goUint8 (bounds lightness)

/-- The value `skinDetect` computes for the red channel of pixel `(x, y)`:
a function of the source buffer alone. -/
def skinValue (sqrtQ : ℚ → ℚ) (cfg : Config) (i : Image) (x y : ℕ) : ℕ :=
  let lightness := cie (rgbaAt i x y) / 255
  let skin := skinCol sqrtQ (rgbaAt i x y)
  if skin > cfg.SkinThreshold ∧ lightness ≥ cfg.SkinBrightnessMin ∧
      lightness ≤ cfg.SkinBrightnessMax then
    goUint8 (bounds ((skin - cfg.SkinThreshold) * (255 / (1 - cfg.SkinThreshold))))
  else 0

/-- The value `saturationDetect` computes for the blue channel of pixel
`(x, y)`: a function of the source buffer alone. -/
def satValue (cfg : Config) (i : Image) (x y : ℕ) : ℕ :=
  let lightness := cie (rgbaAt i x y) / 255
  let sat := saturationOf (rgbaAt i x y)
  if sat > cfg.SaturationThreshold ∧ lightness ≥ cfg.SaturationBrightnessMin ∧
      lightness ≤ cfg.SaturationBrightnessMax then
    goUint8 (bounds ((sat - cfg.SaturationThreshold) *
      (255 / (1 - cfg.SaturationThreshold))))
  else 0

/-! ## Concrete instances for witnesses and counterexamples -/

/-- A floor square root on rationals, `⌊√(num·den)⌋ / den`.  It is exact on
perfect rational squares; concrete scenarios below are arranged so that the
only square-root values that influence the result are exact, hence agree with
`math.Sqrt`. -/
def sqrtFloor (q : ℚ) : ℚ := ((Nat.sqrt (q.num.toNat * q.den) : ℤ) : ℚ) / (q.den : ℚ)

/-- The identity resizer, used in concrete scenarios with `Prescale = false`,
where the resizer is never invoked. -/
def idResizer : Image → ℕ → ℕ → Image := fun im _ _ => im

/-- An external face detector returning no boxes. -/
def noFaces : Image → List Rectangle := fun _ => []

/-- Concrete 4×4 black image. -/
def imgCE : Image := ⟨4, 4, fun _ _ => ⟨0, 0, 0, 255⟩⟩

/-- Concrete configuration with `MaxScale = MinScale = 3`: on a 4×4 image at
target 4×4 the smallest candidate spans `4·3 = 12 > 4` pixels, so the
candidate generator emits nothing at all and the selector keeps its
zero-crop/sentinel initialisation. -/
def cfgCE : Config where
  DetailWeight := 1/5
  SkinBias := 1/100
  SkinBrightnessMin := 1/5
  SkinBrightnessMax := 1
  SkinThreshold := 4/5
  SkinWeight := 9/5
  SaturationBrightnessMin := 1/20
  SaturationBrightnessMax := 9/10
  SaturationThreshold := 2/5
  SaturationBias := 1/5
  SaturationWeight := 3/10
  ScoreDownSample := 1
  Step := 1
  ScaleStep := 1
  MinScale := 3
  MaxScale := 3
  EdgeRadius := 2/5
  EdgeWeight := -20
  OutsideImportance := -1/2
  RuleOfThirds := false
  Prescale := false
  PrescaleMin := 400
  FaceDetectEnabled := false

/-- `cfgCE` with face awareness enabled (for the face-score scenario). -/
def cfgFace : Config := { cfgCE with FaceDetectEnabled := true }

/-- A single candidate whose total lies below the `-1.0` sentinel. -/
def cropNeg : Crop := ⟨⟨⟨0, 0⟩, ⟨1, 1⟩⟩, ⟨0, 0, 0, 0, -2⟩⟩

/-- A 1×1 source image for the extractor frame-effect scenario. -/
def imgOne : Image := ⟨1, 1, fun _ _ => ⟨10, 20, 30, 255⟩⟩

/-- A 1×1 output buffer whose red channel is nonzero before extraction. -/
def bufOne : Image := ⟨1, 1, fun _ _ => ⟨7, 5, 6, 9⟩⟩

/-- `cfgCE` with the scale range pinned to `[1, 1]` (exactly one candidate,
the full image) and a feature-sampling stride larger than the image (the
scoring loop samples nothing, so the candidate's total is `0 > -1`). -/
def cfgPos : Config := { cfgCE with MinScale := 1, MaxScale := 1, ScoreDownSample := 8 }

/-- A second candidate scoring above the sentinel. -/
def cropPos : Crop := ⟨⟨⟨0, 0⟩, ⟨2, 2⟩⟩, ⟨0, 0, 0, 0, 5⟩⟩

/-- A 10×10 candidate for the face-score scenario. -/
def cropFace : Crop := ⟨⟨⟨0, 0⟩, ⟨10, 10⟩⟩, Score.zero⟩

/-- A face box covering exactly half of `cropFace`. -/
def boxHalf : Rectangle := ⟨⟨0, 0⟩, ⟨10, 5⟩⟩

/-- A face box only partially overlapping `cropFace`. -/
def boxPartial : Rectangle := ⟨⟨5, 5⟩, ⟨15, 15⟩⟩

/-- A 3×3 image with distinct channel values per pixel, for the edge-detector
witness. -/
def img3 : Image := ⟨3, 3, fun x y => ⟨10 * x + y, 20 * x + 3 * y, 5 * x + 7 * y, 255⟩⟩

/-! ## Selector lemmas -/

/-- Full characterization of the selector's accumulator loop: either nothing
beats the running score and the running crop survives, or the result is the
first list element that strictly beats everything before it and is not
strictly beaten afterwards. -/
theorem findTopCropAux_spec (cs : List Crop) (top : Crop) (ts : ℚ) :
    (findTopCropAux top ts cs = top ∧ ∀ c ∈ cs, c.score.total ≤ ts) ∨
    (∃ pre r post, cs = pre ++ r :: post ∧ findTopCropAux top ts cs = r ∧
      ts < r.score.total ∧ (∀ c ∈ pre, c.score.total < r.score.total) ∧
      (∀ c ∈ post, c.score.total ≤ r.score.total)) := by
  induction cs generalizing top ts with
  | nil =>
      left
      exact ⟨rfl, by simp⟩
  | cons c rest ih =>
      by_cases h : ts < c.score.total
      · rw [show findTopCropAux top ts (c :: rest) =
            findTopCropAux c c.score.total rest from by rw [findTopCropAux, if_pos h]]
        rcases ih c c.score.total with ⟨heq, hall⟩ |
          ⟨pre, r, post, hdec, heq, hlt, hpre, hpost⟩
        · right
          exact ⟨[], c, rest, rfl, heq, h, by simp, hall⟩
        · right
          refine ⟨c :: pre, r, post, by simp [hdec], heq, lt_trans h hlt, ?_, hpost⟩
          intro c' hc'
          rcases List.mem_cons.mp hc' with rfl | hc'
          · exact hlt
          · exact hpre c' hc'
      · rw [show findTopCropAux top ts (c :: rest) =
            findTopCropAux top ts rest from by rw [findTopCropAux, if_neg h]]
        rcases ih top ts with ⟨heq, hall⟩ |
          ⟨pre, r, post, hdec, heq, hlt, hpre, hpost⟩
        · left
          refine ⟨heq, ?_⟩
          intro c' hc'
          rcases List.mem_cons.mp hc' with rfl | hc'
          · exact not_lt.mp h
          · exact hall c' hc'
        · right
          refine ⟨c :: pre, r, post, by simp [hdec], heq, hlt, ?_, hpost⟩
          intro c' hc'
          rcases List.mem_cons.mp hc' with rfl | hc'
          · exact lt_of_le_of_lt (not_lt.mp h) hlt
          · exact hpre c' hc'

/-- If some candidate scores strictly above the `-1.0` sentinel, the selector
returns the first candidate attaining the maximal total. -/
theorem findTopCrop_spec (cs : List Crop)
    (hex : ∃ c ∈ cs, -1 < c.score.total) :
    ∃ pre r post, cs = pre ++ r :: post ∧ findTopCrop cs = r ∧
      (∀ c ∈ pre, c.score.total < r.score.total) ∧
      (∀ c ∈ cs, c.score.total ≤ r.score.total) := by
  rcases findTopCropAux_spec cs Crop.zero (-1) with ⟨-, hall⟩ |
    ⟨pre, r, post, hdec, heq, -, hpre, hpost⟩
  · obtain ⟨c, hc, hgt⟩ := hex
    exact absurd (hall c hc) (not_le.mpr hgt)
  · refine ⟨pre, r, post, hdec, heq, hpre, ?_⟩
    intro c hc
    rw [hdec] at hc
    rcases List.mem_append.mp hc with hc | hc
    · exact (hpre c hc).le
    · rcases List.mem_cons.mp hc with rfl | hc
      · exact le_refl _
      · exact hpost c hc

/-- If no candidate scores strictly above the sentinel (in particular if the
list is empty), the selector returns the zero-value crop. -/
theorem findTopCrop_sentinel (cs : List Crop)
    (hall : ∀ c ∈ cs, c.score.total ≤ -1) : findTopCrop cs = Crop.zero := by
  rcases findTopCropAux_spec cs Crop.zero (-1) with ⟨heq, -⟩ |
    ⟨pre, r, post, hdec, -, hlt, -, -⟩
  · exact heq
  · have : r ∈ cs := by
      rw [hdec]
      exact List.mem_append.mpr (Or.inr (List.mem_cons_self r post))
    exact absurd (hall r this) (not_le.mpr hlt)

/-! ## Geometric helper lemmas -/

/-- `Canon` always produces a canonical rectangle. -/
theorem canon_canonical (r : Rectangle) :
    (r.canon).min.x ≤ (r.canon).max.x ∧ (r.canon).min.y ≤ (r.canon).max.y := by
  unfold Rectangle.canon
  dsimp only
  split_ifs <;> constructor <;> omega

/-- `Canon` of a canonical rectangle is itself. -/
theorem canon_eq_self (r : Rectangle) (h1 : r.min.x ≤ r.max.x)
    (h2 : r.min.y ≤ r.max.y) : r.canon = r := by
  unfold Rectangle.canon
  rw [if_neg (not_lt.mpr h1), if_neg (not_lt.mpr h1), if_neg (not_lt.mpr h2),
    if_neg (not_lt.mpr h2)]

/-- Truncation toward zero is monotone. -/
theorem goTrunc_mono {a b : ℚ} (h : a ≤ b) : goTrunc a ≤ goTrunc b := by
  unfold goTrunc
  by_cases ha : a < 0 <;> by_cases hb : b < 0 <;> simp only [ha, hb, if_pos, if_neg,
    if_true, if_false, ite_true, ite_false]
  · exact Int.ceil_mono h
  · calc ⌈a⌉ ≤ 0 := Int.ceil_le.mpr (by exact_mod_cast ha.le)
      _ ≤ ⌊b⌋ := Int.floor_nonneg.mpr (not_lt.mp hb)
  · exact absurd (lt_of_le_of_lt h hb) ha
  · exact Int.floor_mono h

/-- Truncation of a nonnegative rational is nonnegative. -/
theorem goTrunc_nonneg {q : ℚ} (h : 0 ≤ q) : 0 ≤ goTrunc q := by
  unfold goTrunc
  rw [if_neg (not_lt.mpr h)]
  exact Int.floor_nonneg.mpr h

/-- For nonnegative arguments, truncation is bounded by the argument. -/
theorem goTrunc_le_self {q : ℚ} (h : 0 ≤ q) : (goTrunc q : ℚ) ≤ q := by
  unfold goTrunc
  rw [if_neg (not_lt.mpr h)]
  exact Int.floor_le q

/-- Truncation respects integer upper bounds. -/
theorem goTrunc_le_intCast {q : ℚ} {n : ℤ} (h : q ≤ (n : ℚ)) : goTrunc q ≤ n := by
  unfold goTrunc
  split_ifs with hq
  · calc ⌈q⌉ ≤ ⌈(n : ℚ)⌉ := Int.ceil_mono h
      _ = n := Int.ceil_intCast n
  · calc ⌊q⌋ ≤ ⌊(n : ℚ)⌋ := Int.floor_mono h
      _ = n := Int.floor_intCast n

/-- `image.Rect` with ordered arguments builds the rectangle directly. -/
theorem goRect_of_le {x0 y0 x1 y1 : ℤ} (hx : x0 ≤ x1) (hy : y0 ≤ y1) :
    goRect x0 y0 x1 y1 = ⟨⟨x0, y0⟩, ⟨x1, y1⟩⟩ := by
  unfold goRect
  dsimp only
  rw [if_neg (not_lt.mpr hx), if_neg (not_lt.mpr hy)]

/-- Every rectangle produced by the candidate generator is canonical and lies
inside the bounds of the image it sweeps, provided the crop dimensions and
the minimum scale are nonnegative. -/
theorem crops_rect_bounds (i : Image) (cw ch rms : ℚ) (cfg : Config)
    (hcw : 0 ≤ cw) (hch : 0 ≤ ch) (hrms : 0 ≤ rms) :
    ∀ c ∈ crops i cw ch rms cfg,
      0 ≤ c.rect.min.x ∧ c.rect.min.x ≤ c.rect.max.x ∧
        (c.rect.max.x : ℚ) ≤ (i.width : ℚ) ∧
      0 ≤ c.rect.min.y ∧ c.rect.min.y ≤ c.rect.max.y ∧
        (c.rect.max.y : ℚ) ≤ (i.height : ℚ) := by
  intro c hc
  unfold crops at hc
  simp only [List.mem_flatMap, List.mem_map] at hc
  obtain ⟨scale, hscale, y, hy, x, hx, rfl⟩ := hc
  have hs0 : 0 ≤ scale := le_trans hrms (loopScales_mem _ _ _ _ hscale).1
  set minDimension : ℚ := min (i.width : ℚ) (i.height : ℚ) with hmd
  have hmd0 : 0 ≤ minDimension := le_min (by positivity) (by positivity)
  set cropW := if cw ≠ 0 then cw else minDimension with hcwdef
  set cropH := if ch ≠ 0 then ch else minDimension with hchdef
  have hcw0 : 0 ≤ cropW := by
    rw [hcwdef]; split_ifs <;> assumption
  have hch0 : 0 ≤ cropH := by
    rw [hchdef]; split_ifs <;> assumption
  have hxb := loopPos_mem _ _ _ _ _ hx
  have hyb := loopPos_mem _ _ _ _ _ hy
  have htw : 0 ≤ goTrunc (cropW * scale) := goTrunc_nonneg (mul_nonneg hcw0 hs0)
  have hth : 0 ≤ goTrunc (cropH * scale) := goTrunc_nonneg (mul_nonneg hch0 hs0)
  rw [goRect_of_le (by omega) (by omega)]
  dsimp only
  refine ⟨hxb.1, by omega, ?_, hyb.1, by omega, ?_⟩
  · have h1 : (goTrunc (cropW * scale) : ℚ) ≤ cropW * scale :=
      goTrunc_le_self (mul_nonneg hcw0 hs0)
    have h2 := hxb.2
    push_cast
    linarith
  · have h1 : (goTrunc (cropH * scale) : ℚ) ≤ cropH * scale :=
      goTrunc_le_self (mul_nonneg hch0 hs0)
    have h2 := hyb.2
    push_cast
    linarith

/-! ## Further helper lemmas -/

/-- The extractors write in place: the buffer's bounds are unchanged. -/
theorem edgeDetect_width (i o : Image) : (edgeDetect i o).width = o.width := rfl

/-- The extractors write in place: the buffer's bounds are unchanged. -/
theorem edgeDetect_height (i o : Image) : (edgeDetect i o).height = o.height := rfl

/-- The extractors write in place: the buffer's bounds are unchanged. -/
theorem skinDetect_width (sqrtQ : ℚ → ℚ) (cfg : Config) (i o : Image) :
    (skinDetect sqrtQ cfg i o).width = o.width := rfl

/-- The extractors write in place: the buffer's bounds are unchanged. -/
theorem skinDetect_height (sqrtQ : ℚ → ℚ) (cfg : Config) (i o : Image) :
    (skinDetect sqrtQ cfg i o).height = o.height := rfl

/-- The extractors write in place: the buffer's bounds are unchanged. -/
theorem saturationDetect_width (cfg : Config) (i o : Image) :
    (saturationDetect cfg i o).width = o.width := rfl

/-- The extractors write in place: the buffer's bounds are unchanged. -/
theorem saturationDetect_height (cfg : Config) (i o : Image) :
    (saturationDetect cfg i o).height = o.height := rfl

/-- A fresh buffer has the requested bounds. -/
theorem newRGBA_width (w h : ℕ) : (newRGBA w h).width = w := rfl

/-- A fresh buffer has the requested bounds. -/
theorem newRGBA_height (w h : ℕ) : (newRGBA w h).height = h := rfl

/-- Pointwise-equal functions give equal `flatMap`s. -/
theorem flatMap_congr_mem {α β : Type} (l : List α) (f g : α → List β)
    (h : ∀ a ∈ l, f a = g a) : l.flatMap f = l.flatMap g := by
  induction l with
  | nil => rfl
  | cons a l ih =>
      rw [List.flatMap_cons, List.flatMap_cons, h a (List.mem_cons_self a l),
        ih (fun a ha => h a (List.mem_cons_of_mem _ ha))]

/-- On nonnegative arguments, truncation toward zero is the floor. -/
theorem goTrunc_eq_floor {q : ℚ} (h : 0 ≤ q) : goTrunc q = ⌊q⌋ := by
  unfold goTrunc
  rw [if_neg (not_lt.mpr h)]

/-- `image.Rect` always produces a canonical rectangle. -/
theorem goRect_canonical (x0 y0 x1 y1 : ℤ) :
    (goRect x0 y0 x1 y1).min.x ≤ (goRect x0 y0 x1 y1).max.x ∧
    (goRect x0 y0 x1 y1).min.y ≤ (goRect x0 y0 x1 y1).max.y := by
  unfold goRect
  dsimp only
  split_ifs <;> constructor <;> dsimp only <;> omega

/-- Row-major indexing into a `flatMap` of fixed-width rows. -/
theorem flatMap_rows_getD {β : Type} (w : ℕ) (d : β) :
    ∀ (hh : ℕ) (g : ℕ → ℕ → β) (x y : ℕ), x < w → y < hh →
      (((List.range hh).flatMap (fun yy => (List.range w).map (g yy))).getD
        (y * w + x) d) = g y x := by
  intro hh
  induction hh with
  | zero => intro g x y _ hy; omega
  | succ n ih =>
      intro g x y hx hy
      rw [List.range_succ_eq_map, List.flatMap_cons, List.flatMap_map]
      rw [List.getD_eq_getElem?_getD]
      cases y with
      | zero =>
          have hxlen : 0 * w + x < (List.map (g 0) (List.range w)).length := by
            simpa using hx
          rw [List.getElem?_append, if_pos hxlen]
          rw [List.getElem?_map, List.getElem?_range (show 0 * w + x < w by simpa using hx)]
          simp
      | succ m =>
          have hlen : (List.map (g 0) (List.range w)).length ≤ (m + 1) * w + x := by
            simp only [List.length_map, List.length_range]
            nlinarith
          rw [List.getElem?_append_right hlen]
          have hidx : (m + 1) * w + x - (List.map (g 0) (List.range w)).length
              = m * w + x := by
            simp only [List.length_map, List.length_range]
            ring_nf
            omega
          rw [hidx]
          have := ih (fun yy => g (yy + 1)) x m hx (by omega)
          rw [List.getD_eq_getElem?_getD] at this
          simpa [Nat.succ_eq_add_one] using this

/-- The luma array holds `cie` of the pixel at the row-major index. -/
theorem makeCies_getD (img : Image) (x y : ℕ) (hx : x < img.width)
    (hy : y < img.height) :
    (makeCies img).getD (y * img.width + x) 0 = cie (rgbaAt img x y) := by
  unfold makeCies
  exact flatMap_rows_getD img.width 0 img.height
    (fun yy xx => cie (rgbaAt img xx yy)) x y hx hy

/-- The feature-sampling loop never touches the face accumulator. -/
theorem foldl_scoreStep_face (sqrtQ : ℚ → ℚ) (cfg : Config) (output : Image)
    (crop : Crop) (pts : List (ℤ × ℤ)) :
    ∀ s0 : Score, (pts.foldl (scoreStep sqrtQ cfg output crop) s0).face = s0.face := by
  induction pts with
  | nil => intro s0; rfl
  | cons p rest ih =>
      intro s0
      rw [List.foldl_cons, ih]
      rfl

/-- The face loop accumulates exactly the area ratios of the contained
boxes. -/
theorem foldl_face_sum (crop : Crop) (cropRes : ℤ) (rects : List Rectangle) :
    ∀ s0 : Score,
      (rects.foldl
        (fun sc r =>
          if r.goIn crop.rect then
            { sc with face := sc.face + ((r.dx * r.dy : ℤ) : ℚ) / (cropRes : ℚ) }
          else sc) s0).face =
      s0.face + ((rects.filter (fun r => decide (r.goIn crop.rect))).map
        (fun r => ((r.dx * r.dy : ℤ) : ℚ) / (cropRes : ℚ))).sum := by
  induction rects with
  | nil => intro s0; simp
  | cons r rest ih =>
      intro s0
      rw [List.foldl_cons, List.filter_cons]
      by_cases h : r.goIn crop.rect
      · rw [if_pos h, if_pos (by simpa using h), List.map_cons, List.sum_cons, ih]
        ring
      · rw [if_neg h, if_neg (by simpa using h), ih]

/-- The face loop touches only the face accumulator. -/
theorem foldl_face_others (crop : Crop) (cropRes : ℤ) (rects : List Rectangle) :
    ∀ s0 : Score,
      ((rects.foldl
        (fun sc r =>
          if r.goIn crop.rect then
            { sc with face := sc.face + ((r.dx * r.dy : ℤ) : ℚ) / (cropRes : ℚ) }
          else sc) s0).detail = s0.detail ∧
      (rects.foldl
        (fun sc r =>
          if r.goIn crop.rect then
            { sc with face := sc.face + ((r.dx * r.dy : ℤ) : ℚ) / (cropRes : ℚ) }
          else sc) s0).skin = s0.skin ∧
      (rects.foldl
        (fun sc r =>
          if r.goIn crop.rect then
            { sc with face := sc.face + ((r.dx * r.dy : ℤ) : ℚ) / (cropRes : ℚ) }
          else sc) s0).saturation = s0.saturation) := by
  induction rects with
  | nil => intro s0; exact ⟨rfl, rfl, rfl⟩
  | cons r rest ih =>
      intro s0
      rw [List.foldl_cons]
      by_cases h : r.goIn crop.rect
      · rw [if_pos h]
        exact ih _
      · rw [if_neg h]
        exact ih _

/-- The selector returns either the zero crop or one of its inputs. -/
theorem findTopCrop_mem_or_zero (cs : List Crop) :
    findTopCrop cs = Crop.zero ∨ findTopCrop cs ∈ cs := by
  rcases findTopCropAux_spec cs Crop.zero (-1) with ⟨heq, -⟩ |
    ⟨pre, r, post, hdec, heq, -, -, -⟩
  · exact Or.inl heq
  · right
    unfold findTopCrop
    rw [heq, hdec]
    exact List.mem_append.mpr (Or.inr (List.mem_cons_self r post))

/-- Every coordinate of `Canon r` is one of the corresponding coordinates of
`r`, so coordinate-wise interval bounds survive canonicalization. -/
theorem canon_bounds {r : Rectangle} {W H : ℤ}
    (h1 : 0 ≤ r.min.x) (h2 : r.min.x ≤ W) (h3 : 0 ≤ r.max.x) (h4 : r.max.x ≤ W)
    (h5 : 0 ≤ r.min.y) (h6 : r.min.y ≤ H) (h7 : 0 ≤ r.max.y) (h8 : r.max.y ≤ H) :
    0 ≤ (r.canon).min.x ∧ (r.canon).max.x ≤ W ∧
    0 ≤ (r.canon).min.y ∧ (r.canon).max.y ≤ H := by
  unfold Rectangle.canon
  dsimp only
  split_ifs <;> refine ⟨?_, ?_, ?_, ?_⟩ <;> omega

/-- The inverse-prescale transform of the zero rectangle is the zero
rectangle. -/
theorem rescaleRect_zero (pf : ℚ) : rescaleRect pf Rectangle.zero = Rectangle.zero := by
  unfold rescaleRect Rectangle.zero
  norm_num [goTrunc]

/-- With a positive prescale factor, the inverse-prescale transform preserves
canonicity. -/
theorem rescaleRect_canonical {pf : ℚ} (hpf : 0 < pf) {r : Rectangle}
    (h1 : r.min.x ≤ r.max.x) (h2 : r.min.y ≤ r.max.y) :
    (rescaleRect pf r).min.x ≤ (rescaleRect pf r).max.x ∧
    (rescaleRect pf r).min.y ≤ (rescaleRect pf r).max.y := by
  unfold rescaleRect
  dsimp only
  constructor
  · exact goTrunc_mono (div_le_div_of_nonneg_right (by exact_mod_cast h1) hpf.le)
  · exact goTrunc_mono (div_le_div_of_nonneg_right (by exact_mod_cast h2) hpf.le)

/-- Every candidate rectangle from the generator is canonical (built by
`image.Rect`, which swaps reversed coordinates). -/
theorem crops_rect_canonical (i : Image) (cw ch rms : ℚ) (cfg : Config) :
    ∀ c ∈ crops i cw ch rms cfg,
      c.rect.min.x ≤ c.rect.max.x ∧ c.rect.min.y ≤ c.rect.max.y := by
  intro c hc
  unfold crops at hc
  simp only [List.mem_flatMap, List.mem_map] at hc
  obtain ⟨scale, -, y, -, x, -, rfl⟩ := hc
  exact goRect_canonical _ _ _ _

/-- `FindBestCrop` past the dimension guard, written without `let`s. -/
theorem findBestCrop_eq (sqrtQ : ℚ → ℚ) (resizer : Image → ℕ → ℕ → Image)
    (faceDet : Image → List Rectangle) (cfg : Config) (img : Image) (w h : ℤ)
    (hwh : ¬(w = 0 ∧ h = 0)) :
    findBestCrop sqrtQ resizer faceDet cfg img w h =
      ((if cfg.Prescale then
          rescaleRect (preprocessForAnalysis resizer cfg img w h).pf
            (findTopCrop (analyseScored sqrtQ faceDet cfg
              (preprocessForAnalysis resizer cfg img w h).rgba
              (preprocessForAnalysis resizer cfg img w h).cropWidth
              (preprocessForAnalysis resizer cfg img w h).cropHeight
              (preprocessForAnalysis resizer cfg img w h).realMinScale).1).rect
        else
          (findTopCrop (analyseScored sqrtQ faceDet cfg
            (preprocessForAnalysis resizer cfg img w h).rgba
            (preprocessForAnalysis resizer cfg img w h).cropWidth
            (preprocessForAnalysis resizer cfg img w h).cropHeight
            (preprocessForAnalysis resizer cfg img w h).realMinScale).1).rect).canon,
        none) := by
  unfold findBestCrop
  rw [if_neg hwh]

/-- `FindAllCrops` past the dimension guard, written without `let`s. -/
theorem findAllCrops_eq (sqrtQ : ℚ → ℚ) (resizer : Image → ℕ → ℕ → Image)
    (faceDet : Image → List Rectangle) (cfg : Config) (img : Image) (w h : ℤ)
    (hwh : ¬(w = 0 ∧ h = 0)) :
    findAllCrops sqrtQ resizer faceDet cfg img w h =
      ((analyseScored sqrtQ faceDet cfg
          (preprocessForAnalysis resizer cfg img w h).rgba
          (preprocessForAnalysis resizer cfg img w h).cropWidth
          (preprocessForAnalysis resizer cfg img w h).cropHeight
          (preprocessForAnalysis resizer cfg img w h).realMinScale).1.map (fun c =>
        if cfg.Prescale then
          { c with rect := rescaleRect (preprocessForAnalysis resizer cfg img w h).pf c.rect }
        else c), none) := by
  unfold findAllCrops
  rw [if_neg hwh]

/-- The scored candidate list consists of the generated candidates with their
scores filled in; in particular each scored candidate keeps its generated
rectangle. -/
theorem analyseScored_mem_rect (sqrtQ : ℚ → ℚ) (faceDet : Image → List Rectangle)
    (cfg : Config) (img : Image) (cw ch rms : ℚ) :
    ∀ c ∈ (analyseScored sqrtQ faceDet cfg img cw ch rms).1,
      ∃ c0 ∈ crops (saturationDetect cfg img (skinDetect sqrtQ cfg img
        (edgeDetect img (newRGBA img.width img.height)))) cw ch rms cfg,
        c.rect = c0.rect := by
  intro c hc
  unfold analyseScored at hc
  dsimp only at hc
  obtain ⟨c0, hc0, rfl⟩ := List.mem_map.mp hc
  exact ⟨c0, hc0, rfl⟩

/-- In the `cfgCE` scenario (`MaxScale = MinScale = 3` on a 4×4 image at
target 4×4) the candidate generator emits nothing. -/
theorem analyseScoredCE_empty :
    (analyseScored sqrtFloor noFaces cfgCE
      (preprocessForAnalysis idResizer cfgCE imgCE 4 4).rgba
      (preprocessForAnalysis idResizer cfgCE imgCE 4 4).cropWidth
      (preprocessForAnalysis idResizer cfgCE imgCE 4 4).cropHeight
      (preprocessForAnalysis idResizer cfgCE imgCE 4 4).realMinScale).1 = [] := by
  norm_num [analyseScored, preprocessForAnalysis, scaleFor, crops,
    loopScales_eq_range, loopPos_eq_range, cfgCE, imgCE, idResizer, noFaces,
    chop, goTrunc, edgeDetect_width, edgeDetect_height, skinDetect_width,
    skinDetect_height, saturationDetect_width, saturationDetect_height,
    newRGBA_width, newRGBA_height]

/-- In the `cfgPos` scenario the generator emits exactly the full-image
candidate, and its score loop samples nothing, so its total is `0`. -/
theorem analyseScoredPos_eq :
    (analyseScored sqrtFloor noFaces cfgPos
      (preprocessForAnalysis idResizer cfgPos imgCE 4 4).rgba
      (preprocessForAnalysis idResizer cfgPos imgCE 4 4).cropWidth
      (preprocessForAnalysis idResizer cfgPos imgCE 4 4).cropHeight
      (preprocessForAnalysis idResizer cfgPos imgCE 4 4).realMinScale).1 =
      [⟨⟨⟨0, 0⟩, ⟨4, 4⟩⟩, ⟨0, 0, 0, 0, 0⟩⟩] := by
  norm_num [analyseScored, preprocessForAnalysis, scaleFor, crops,
    loopScales_eq_range, loopPos_eq_range, cfgPos, cfgCE, imgCE, idResizer,
    noFaces, chop, goTrunc, goRect, score, scoreStep, Score.zero, Rectangle.dx,
    Rectangle.dy, List.range_succ, List.range_zero, edgeDetect_width,
    edgeDetect_height, skinDetect_width, skinDetect_height,
    saturationDetect_width, saturationDetect_height, newRGBA_width,
    newRGBA_height]

/-! ## Claim theorems -/

/-- C2: when both target dimensions are zero, `FindBestCrop` returns the
`InvalidDimensions` error with the empty rectangle and `FindAllCrops` returns
it with the empty candidate list, for every image, configuration, resizer,
face detector and square-root routine — i.e. immediately, with no processing
attempted. -/
theorem C2_invalid_dimensions (sqrtQ : ℚ → ℚ) (resizer : Image → ℕ → ℕ → Image)
    (faceDet : Image → List Rectangle) (cfg : Config) (img : Image) :
    findBestCrop sqrtQ resizer faceDet cfg img 0 0 =
      (Rectangle.zero, some Err.invalidDimensions) ∧
    findAllCrops sqrtQ resizer faceDet cfg img 0 0 =
      ([], some Err.invalidDimensions) :=
  ⟨rfl, rfl⟩

/-- C8: every score's derived total equals the weighted sum of the detail,
skin and saturation accumulators divided by the candidate rectangle's area
`Dx·Dy`, plus the face score. -/
theorem C8_total_formula (sqrtQ : ℚ → ℚ) (cfg : Config) (output : Image)
    (crop : Crop) (faceRects : List Rectangle) :
    (score sqrtQ cfg output crop faceRects).total =
      ((score sqrtQ cfg output crop faceRects).detail * cfg.DetailWeight +
        (score sqrtQ cfg output crop faceRects).skin * cfg.SkinWeight +
        (score sqrtQ cfg output crop faceRects).saturation * cfg.SaturationWeight) /
        ((crop.rect.dx : ℚ) * (crop.rect.dy : ℚ)) +
      (score sqrtQ cfg output crop faceRects).face :=
  rfl

/-- C5: with face awareness enabled, and for face boxes that are canonical and
non-empty (as real detector boxes are), a candidate's face score is exactly
the sum over the boxes contained entirely within the candidate of the box
area divided by the candidate area; partially overlapping boxes contribute
nothing. -/
theorem C5_face_containment (sqrtQ : ℚ → ℚ) (cfg : Config) (output : Image)
    (crop : Crop) (faceRects : List Rectangle)
    (hen : cfg.FaceDetectEnabled = true)
    (hboxes : ∀ r ∈ faceRects, r.min.x < r.max.x ∧ r.min.y < r.max.y) :
    (score sqrtQ cfg output crop faceRects).face =
      ((faceRects.filter (fun r => containedIn r crop.rect)).map
        (fun r => ((r.dx * r.dy : ℤ) : ℚ) /
          ((crop.rect.dx * crop.rect.dy : ℤ) : ℚ))).sum := by
  unfold score
  simp only [hen, if_true]
  rw [foldl_face_sum, foldl_scoreStep_face]
  have hfilter : faceRects.filter (fun r => decide (r.goIn crop.rect)) =
      faceRects.filter (fun r => containedIn r crop.rect) := by
    apply List.filter_congr
    intro r hr
    have hne : ¬r.empty := by
      have := hboxes r hr
      unfold Rectangle.empty
      omega
    simp only [containedIn, decide_eq_decide]
    unfold Rectangle.goIn
    constructor
    · rintro (he | hc)
      · exact absurd he hne
      · exact hc
    · exact Or.inr
  rw [hfilter]
  show (0 : ℚ) + _ = _
  rw [zero_add]

/-- C5 witness: one box fully contained and covering 50% of the candidate and
one partially overlapping box give a face score of exactly `1/2`. -/
theorem C5_face_containment_witness :
    cfgFace.FaceDetectEnabled = true ∧
    (∀ r ∈ [boxHalf, boxPartial], r.min.x < r.max.x ∧ r.min.y < r.max.y) ∧
    (score sqrtFloor cfgFace (newRGBA 0 0) cropFace [boxHalf, boxPartial]).face
      = 1/2 := by
  refine ⟨rfl, by decide, ?_⟩
  rw [C5_face_containment sqrtFloor cfgFace (newRGBA 0 0) cropFace
    [boxHalf, boxPartial] rfl (by decide)]
  norm_num [containedIn, boxHalf, boxPartial, cropFace, Rectangle.dx, Rectangle.dy]

/-- C4 counterexample: on a list whose single candidate scores `-2`, the
selector does not return that candidate (which is the unique candidate of
maximal total) but the zero-value crop. -/
theorem C4_counterexample :
    findTopCrop [cropNeg] ≠ cropNeg ∧
    (∀ c ∈ [cropNeg], c.score.total ≤ cropNeg.score.total) := by
  constructor
  · decide
  · decide

/-- C4 (amended): provided at least one candidate's total exceeds the
selector's `-1.0` sentinel, `findTopCrop` returns the first candidate of
maximal total — its total is at least every candidate's total, and every
candidate before it in the iteration order scores strictly less. -/
theorem C4_selector_first_max (cs : List Crop)
    (hex : ∃ c ∈ cs, -1 < c.score.total) :
    ∃ pre r post, cs = pre ++ r :: post ∧ findTopCrop cs = r ∧
      (∀ c ∈ cs, c.score.total ≤ r.score.total) ∧
      (∀ c ∈ pre, c.score.total < r.score.total) := by
  obtain ⟨pre, r, post, hdec, heq, hpre, hmax⟩ := findTopCrop_spec cs hex
  exact ⟨pre, r, post, hdec, heq, hmax, hpre⟩

/-- C4 witness at a concrete two-candidate list. -/
theorem C4_selector_first_max_witness :
    (∃ c ∈ [cropNeg, cropPos], -1 < c.score.total) ∧
    (∃ pre r post, [cropNeg, cropPos] = pre ++ r :: post ∧
      findTopCrop [cropNeg, cropPos] = r ∧
      (∀ c ∈ [cropNeg, cropPos], c.score.total ≤ r.score.total) ∧
      (∀ c ∈ pre, c.score.total < r.score.total)) :=
  ⟨by decide, C4_selector_first_max [cropNeg, cropPos] (by decide)⟩

/-- C10: if every generated candidate's total is at most `-1.0` (in
particular if no candidate was generated), `FindBestCrop` returns the
zero-value rectangle: the selector starts from the `-1.0` sentinel and the
zero crop and replaces them only on a strictly greater total. -/
theorem C10_sentinel_zero_rect (sqrtQ : ℚ → ℚ) (resizer : Image → ℕ → ℕ → Image)
    (faceDet : Image → List Rectangle) (cfg : Config) (img : Image) (w h : ℤ)
    (hwh : ¬(w = 0 ∧ h = 0))
    (hall : ∀ c ∈ (analyseScored sqrtQ faceDet cfg
        (preprocessForAnalysis resizer cfg img w h).rgba
        (preprocessForAnalysis resizer cfg img w h).cropWidth
        (preprocessForAnalysis resizer cfg img w h).cropHeight
        (preprocessForAnalysis resizer cfg img w h).realMinScale).1,
      c.score.total ≤ -1) :
    (findBestCrop sqrtQ resizer faceDet cfg img w h).1 = Rectangle.zero := by
  unfold findBestCrop
  rw [if_neg hwh]
  dsimp only
  rw [findTopCrop_sentinel _ hall]
  cases hps : cfg.Prescale
  · simp only [Bool.false_eq_true, if_false]
    rfl
  · simp only [if_true]
    rw [show Crop.zero.rect = Rectangle.zero from rfl, rescaleRect_zero]
    rfl

/-- C10 witness: the concrete scenario where the candidate generator emits
nothing (every candidate total bound holds vacuously), so the returned
rectangle is `(0,0)-(0,0)`. -/
theorem C10_sentinel_zero_rect_witness :
    ¬((4 : ℤ) = 0 ∧ (4 : ℤ) = 0) ∧
    (∀ c ∈ (analyseScored sqrtFloor noFaces cfgCE
        (preprocessForAnalysis idResizer cfgCE imgCE 4 4).rgba
        (preprocessForAnalysis idResizer cfgCE imgCE 4 4).cropWidth
        (preprocessForAnalysis idResizer cfgCE imgCE 4 4).cropHeight
        (preprocessForAnalysis idResizer cfgCE imgCE 4 4).realMinScale).1,
      c.score.total ≤ -1) ∧
    (findBestCrop sqrtFloor idResizer noFaces cfgCE imgCE 4 4).1 =
      Rectangle.zero := by
  have hempty := analyseScoredCE_empty
  refine ⟨by decide, ?_, ?_⟩
  · rw [hempty]
    intro c hc
    simp at hc
  · refine C10_sentinel_zero_rect sqrtFloor idResizer noFaces cfgCE imgCE 4 4
      (by decide) ?_
    rw [hempty]
    intro c hc
    simp at hc

/-- C1 (amended): provided the prescale factor is positive and at least one
generated candidate's total exceeds the selector's `-1.0` sentinel, the list
returned by `FindAllCrops` contains a candidate whose rectangle equals the
rectangle returned by `FindBestCrop` on the same image, target and
configuration, and that candidate's total is maximal among all returned
candidates. -/
theorem C1_best_among_all (sqrtQ : ℚ → ℚ) (resizer : Image → ℕ → ℕ → Image)
    (faceDet : Image → List Rectangle) (cfg : Config) (img : Image) (w h : ℤ)
    (hwh : ¬(w = 0 ∧ h = 0))
    (hpf : 0 < (preprocessForAnalysis resizer cfg img w h).pf)
    (hex : ∃ c ∈ (analyseScored sqrtQ faceDet cfg
        (preprocessForAnalysis resizer cfg img w h).rgba
        (preprocessForAnalysis resizer cfg img w h).cropWidth
        (preprocessForAnalysis resizer cfg img w h).cropHeight
        (preprocessForAnalysis resizer cfg img w h).realMinScale).1,
      -1 < c.score.total) :
    ∃ c ∈ (findAllCrops sqrtQ resizer faceDet cfg img w h).1,
      c.rect = (findBestCrop sqrtQ resizer faceDet cfg img w h).1 ∧
      ∀ c' ∈ (findAllCrops sqrtQ resizer faceDet cfg img w h).1,
        c'.score.total ≤ c.score.total := by
  obtain ⟨pre0, r, post0, hdec, heq, hpre0, hmax⟩ := findTopCrop_spec _ hex
  have hrmem : r ∈ (analyseScored sqrtQ faceDet cfg
      (preprocessForAnalysis resizer cfg img w h).rgba
      (preprocessForAnalysis resizer cfg img w h).cropWidth
      (preprocessForAnalysis resizer cfg img w h).cropHeight
      (preprocessForAnalysis resizer cfg img w h).realMinScale).1 := by
    rw [hdec]
    exact List.mem_append.mpr (Or.inr (List.mem_cons_self _ _))
  obtain ⟨c0, hc0, hre⟩ := analyseScored_mem_rect sqrtQ faceDet cfg
    (preprocessForAnalysis resizer cfg img w h).rgba
    (preprocessForAnalysis resizer cfg img w h).cropWidth
    (preprocessForAnalysis resizer cfg img w h).cropHeight
    (preprocessForAnalysis resizer cfg img w h).realMinScale r hrmem
  have hrc : r.rect.min.x ≤ r.rect.max.x ∧ r.rect.min.y ≤ r.rect.max.y := by
    rw [hre]
    exact crops_rect_canonical _ _ _ _ _ c0 hc0
  rw [findAllCrops_eq sqrtQ resizer faceDet cfg img w h hwh,
    findBestCrop_eq sqrtQ resizer faceDet cfg img w h hwh]
  dsimp only
  rw [heq]
  refine ⟨(if cfg.Prescale then
      { r with rect := rescaleRect (preprocessForAnalysis resizer cfg img w h).pf r.rect }
    else r), List.mem_map.mpr ⟨r, hrmem, rfl⟩, ?_, ?_⟩
  · rw [apply_ite Crop.rect]
    have hcanonIte :
        (if cfg.Prescale then
            rescaleRect (preprocessForAnalysis resizer cfg img w h).pf r.rect
          else r.rect).min.x ≤
          (if cfg.Prescale then
              rescaleRect (preprocessForAnalysis resizer cfg img w h).pf r.rect
            else r.rect).max.x ∧
        (if cfg.Prescale then
            rescaleRect (preprocessForAnalysis resizer cfg img w h).pf r.rect
          else r.rect).min.y ≤
          (if cfg.Prescale then
              rescaleRect (preprocessForAnalysis resizer cfg img w h).pf r.rect
            else r.rect).max.y := by
      split
      · exact rescaleRect_canonical hpf hrc.1 hrc.2
      · exact hrc
    rw [canon_eq_self _ hcanonIte.1 hcanonIte.2]
  · intro c' hc'
    obtain ⟨c1, hc1, rfl⟩ := List.mem_map.mp hc'
    have h1 : ((if cfg.Prescale then
        { c1 with rect := rescaleRect (preprocessForAnalysis resizer cfg img w h).pf c1.rect }
      else c1)).score.total = c1.score.total := by
      rw [apply_ite (fun c : Crop => c.score.total)]
      exact ite_self _
    have h2 : ((if cfg.Prescale then
        { r with rect := rescaleRect (preprocessForAnalysis resizer cfg img w h).pf r.rect }
      else r)).score.total = r.score.total := by
      rw [apply_ite (fun c : Crop => c.score.total)]
      exact ite_self _
    rw [h1, h2]
    exact hmax c1 hc1

/-- C1 counterexample: a configuration whose smallest candidate scale does
not fit the image generates no candidates at all; `FindAllCrops` returns the
empty list while `FindBestCrop` returns the zero rectangle, so no returned
candidate carries the best rectangle.  (The same failure occurs whenever
every candidate's total is at most the selector's `-1.0` sentinel.) -/
theorem C1_counterexample :
    ¬ ∃ c ∈ (findAllCrops sqrtFloor idResizer noFaces cfgCE imgCE 4 4).1,
      c.rect = (findBestCrop sqrtFloor idResizer noFaces cfgCE imgCE 4 4).1 ∧
      ∀ c' ∈ (findAllCrops sqrtFloor idResizer noFaces cfgCE imgCE 4 4).1,
        c'.score.total ≤ c.score.total := by
  have hempty : (findAllCrops sqrtFloor idResizer noFaces cfgCE imgCE 4 4).1 = [] := by
    rw [findAllCrops_eq sqrtFloor idResizer noFaces cfgCE imgCE 4 4 (by decide)]
    dsimp only
    rw [analyseScoredCE_empty]
    rfl
  rintro ⟨c, hc, -⟩
  rw [hempty] at hc
  simp at hc

/-- C1 witness: in the `cfgPos` scenario the single candidate (total `0`,
above the sentinel) is returned by `FindAllCrops` with the rectangle that
`FindBestCrop` returns, and it is maximal. -/
theorem C1_best_among_all_witness :
    ¬((4 : ℤ) = 0 ∧ (4 : ℤ) = 0) ∧
    0 < (preprocessForAnalysis idResizer cfgPos imgCE 4 4).pf ∧
    (∃ c ∈ (analyseScored sqrtFloor noFaces cfgPos
        (preprocessForAnalysis idResizer cfgPos imgCE 4 4).rgba
        (preprocessForAnalysis idResizer cfgPos imgCE 4 4).cropWidth
        (preprocessForAnalysis idResizer cfgPos imgCE 4 4).cropHeight
        (preprocessForAnalysis idResizer cfgPos imgCE 4 4).realMinScale).1,
      -1 < c.score.total) ∧
    (∃ c ∈ (findAllCrops sqrtFloor idResizer noFaces cfgPos imgCE 4 4).1,
      c.rect = (findBestCrop sqrtFloor idResizer noFaces cfgPos imgCE 4 4).1 ∧
      ∀ c' ∈ (findAllCrops sqrtFloor idResizer noFaces cfgPos imgCE 4 4).1,
        c'.score.total ≤ c.score.total) := by
  have hpf : 0 < (preprocessForAnalysis idResizer cfgPos imgCE 4 4).pf := by
    norm_num [preprocessForAnalysis, scaleFor, cfgPos, cfgCE, imgCE, idResizer]
  have hex : ∃ c ∈ (analyseScored sqrtFloor noFaces cfgPos
      (preprocessForAnalysis idResizer cfgPos imgCE 4 4).rgba
      (preprocessForAnalysis idResizer cfgPos imgCE 4 4).cropWidth
      (preprocessForAnalysis idResizer cfgPos imgCE 4 4).cropHeight
      (preprocessForAnalysis idResizer cfgPos imgCE 4 4).realMinScale).1,
      -1 < c.score.total := by
    rw [analyseScoredPos_eq]
    norm_num
  exact ⟨by decide, hpf, hex,
    C1_best_among_all sqrtFloor idResizer noFaces cfgPos imgCE 4 4
      (by decide) hpf hex⟩

/-- With a positive `PrescaleMin` and positive image dimensions, the prescale
factor is positive. -/
theorem preprocess_pf_pos (resizer : Image → ℕ → ℕ → Image) (cfg : Config)
    (img : Image) (w h : ℤ) (hiw : 0 < img.width) (hih : 0 < img.height)
    (hpm : 0 < cfg.PrescaleMin) :
    0 < (preprocessForAnalysis resizer cfg img w h).pf := by
  unfold preprocessForAnalysis
  dsimp only
  have hmin : (0:ℚ) < min (img.width : ℚ) (img.height : ℚ) :=
    lt_min (by exact_mod_cast hiw) (by exact_mod_cast hih)
  split_ifs with h1 h2
  · exact div_pos hpm hmin
  · exact one_pos
  · exact one_pos

/-- For nonnegative targets the preprocessing scale is nonnegative. -/
theorem scaleFor_nonneg (img : Image) (w h : ℤ) (hw : 0 ≤ w) (hh : 0 ≤ h) :
    0 ≤ scaleFor img w h := by
  unfold scaleFor
  split_ifs
  · exact div_nonneg (by positivity) (by exact_mod_cast hh)
  · exact div_nonneg (by positivity) (by exact_mod_cast hw)
  · exact le_min (div_nonneg (by positivity) (by exact_mod_cast hw))
      (div_nonneg (by positivity) (by exact_mod_cast hh))

/-- C3 (with the external resizer assumed not to overshoot the requested
downscale, and a sane configuration): for every target with at least one
nonzero dimension, both targets nonnegative, positive image dimensions,
nonnegative scale bounds and positive `PrescaleMin`, the rectangle returned
by `FindBestCrop` is canonical and fully contained within the source image
bounds — including after the inverse prescale rescaling of its
coordinates. -/
theorem C3_best_crop_canonical_contained (sqrtQ : ℚ → ℚ)
    (resizer : Image → ℕ → ℕ → Image) (faceDet : Image → List Rectangle)
    (cfg : Config) (img : Image) (w h : ℤ)
    (hwh : ¬(w = 0 ∧ h = 0)) (hw : 0 ≤ w) (hh : 0 ≤ h)
    (hiw : 0 < img.width) (hih : 0 < img.height)
    (hmin : 0 ≤ cfg.MinScale) (hmax : 0 ≤ cfg.MaxScale)
    (hpm : 0 < cfg.PrescaleMin)
    (hres : (((preprocessForAnalysis resizer cfg img w h).rgba.width : ℚ) ≤
        (img.width : ℚ) * (preprocessForAnalysis resizer cfg img w h).pf) ∧
      (((preprocessForAnalysis resizer cfg img w h).rgba.height : ℚ) ≤
        (img.height : ℚ) * (preprocessForAnalysis resizer cfg img w h).pf)) :
    ((findBestCrop sqrtQ resizer faceDet cfg img w h).1.min.x ≤
        (findBestCrop sqrtQ resizer faceDet cfg img w h).1.max.x ∧
      (findBestCrop sqrtQ resizer faceDet cfg img w h).1.min.y ≤
        (findBestCrop sqrtQ resizer faceDet cfg img w h).1.max.y) ∧
    0 ≤ (findBestCrop sqrtQ resizer faceDet cfg img w h).1.min.x ∧
    (findBestCrop sqrtQ resizer faceDet cfg img w h).1.max.x ≤ (img.width : ℤ) ∧
    0 ≤ (findBestCrop sqrtQ resizer faceDet cfg img w h).1.min.y ∧
    (findBestCrop sqrtQ resizer faceDet cfg img w h).1.max.y ≤ (img.height : ℤ) := by
  have hpf := preprocess_pf_pos resizer cfg img w h hiw hih hpm
  have hscale := scaleFor_nonneg img w h hw hh
  -- nonnegativity of the crop dimensions and the minimum scale
  have hcw : 0 ≤ (preprocessForAnalysis resizer cfg img w h).cropWidth := by
    unfold preprocessForAnalysis at hpf ⊢
    dsimp only at hpf ⊢
    unfold chop
    exact_mod_cast goTrunc_nonneg
      (mul_nonneg (mul_nonneg (by exact_mod_cast hw) hscale) hpf.le)
  have hch : 0 ≤ (preprocessForAnalysis resizer cfg img w h).cropHeight := by
    unfold preprocessForAnalysis at hpf ⊢
    dsimp only at hpf ⊢
    unfold chop
    exact_mod_cast goTrunc_nonneg
      (mul_nonneg (mul_nonneg (by exact_mod_cast hh) hscale) hpf.le)
  have hrms : 0 ≤ (preprocessForAnalysis resizer cfg img w h).realMinScale := by
    unfold preprocessForAnalysis
    dsimp only
    exact le_min hmax (le_trans hmin (le_max_right _ _))
  -- the selected crop lies within the (possibly downsampled) working image
  set pre := preprocessForAnalysis resizer cfg img w h with hpre
  set cs := (analyseScored sqrtQ faceDet cfg pre.rgba pre.cropWidth
    pre.cropHeight pre.realMinScale).1 with hcs
  have htop : 0 ≤ (findTopCrop cs).rect.min.x ∧
      (findTopCrop cs).rect.min.x ≤ (findTopCrop cs).rect.max.x ∧
      ((findTopCrop cs).rect.max.x : ℚ) ≤ (pre.rgba.width : ℚ) ∧
      0 ≤ (findTopCrop cs).rect.min.y ∧
      (findTopCrop cs).rect.min.y ≤ (findTopCrop cs).rect.max.y ∧
      ((findTopCrop cs).rect.max.y : ℚ) ≤ (pre.rgba.height : ℚ) := by
    rcases findTopCrop_mem_or_zero cs with hz | hm
    · rw [hz]
      refine ⟨le_refl _, le_refl _, by positivity, le_refl _, le_refl _, by positivity⟩
    · obtain ⟨c0, hc0, hre⟩ := analyseScored_mem_rect sqrtQ faceDet cfg pre.rgba
        pre.cropWidth pre.cropHeight pre.realMinScale _ hm
      have hb := crops_rect_bounds _ _ _ _ cfg hcw hch hrms c0 hc0
      rw [hre]
      exact ⟨hb.1, hb.2.1, hb.2.2.1, hb.2.2.2.1, hb.2.2.2.2.1, hb.2.2.2.2.2⟩
  rw [findBestCrop_eq sqrtQ resizer faceDet cfg img w h hwh]
  dsimp only
  rw [← hpre, ← hcs]
  -- the candidate after the optional inverse prescale, before `Canon`
  have hR : 0 ≤ (if cfg.Prescale then rescaleRect pre.pf (findTopCrop cs).rect
        else (findTopCrop cs).rect).min.x ∧
      (if cfg.Prescale then rescaleRect pre.pf (findTopCrop cs).rect
        else (findTopCrop cs).rect).min.x ≤ (img.width : ℤ) ∧
      0 ≤ (if cfg.Prescale then rescaleRect pre.pf (findTopCrop cs).rect
        else (findTopCrop cs).rect).max.x ∧
      (if cfg.Prescale then rescaleRect pre.pf (findTopCrop cs).rect
        else (findTopCrop cs).rect).max.x ≤ (img.width : ℤ) ∧
      0 ≤ (if cfg.Prescale then rescaleRect pre.pf (findTopCrop cs).rect
        else (findTopCrop cs).rect).min.y ∧
      (if cfg.Prescale then rescaleRect pre.pf (findTopCrop cs).rect
        else (findTopCrop cs).rect).min.y ≤ (img.height : ℤ) ∧
      0 ≤ (if cfg.Prescale then rescaleRect pre.pf (findTopCrop cs).rect
        else (findTopCrop cs).rect).max.y ∧
      (if cfg.Prescale then rescaleRect pre.pf (findTopCrop cs).rect
        else (findTopCrop cs).rect).max.y ≤ (img.height : ℤ) := by
    obtain ⟨h1, h2, h3, h4, h5, h6⟩ := htop
    have hwq : (0:ℚ) ≤ (img.width : ℚ) := by positivity
    have hhq : (0:ℚ) ≤ (img.height : ℚ) := by positivity
    split
    · -- prescale branch: divide by `pf` and truncate
      unfold rescaleRect
      dsimp only
      have hminxW : ((findTopCrop cs).rect.min.x : ℚ) / pre.pf ≤ (img.width : ℚ) := by
        rw [div_le_iff₀ hpf]
        calc ((findTopCrop cs).rect.min.x : ℚ) ≤ ((findTopCrop cs).rect.max.x : ℚ) := by
              exact_mod_cast h2
          _ ≤ (pre.rgba.width : ℚ) := h3
          _ ≤ (img.width : ℚ) * pre.pf := hres.1
      have hmaxxW : ((findTopCrop cs).rect.max.x : ℚ) / pre.pf ≤ (img.width : ℚ) := by
        rw [div_le_iff₀ hpf]
        exact le_trans h3 hres.1
      have hminyH : ((findTopCrop cs).rect.min.y : ℚ) / pre.pf ≤ (img.height : ℚ) := by
        rw [div_le_iff₀ hpf]
        calc ((findTopCrop cs).rect.min.y : ℚ) ≤ ((findTopCrop cs).rect.max.y : ℚ) := by
              exact_mod_cast h5
          _ ≤ (pre.rgba.height : ℚ) := h6
          _ ≤ (img.height : ℚ) * pre.pf := hres.2
      have hmaxyH : ((findTopCrop cs).rect.max.y : ℚ) / pre.pf ≤ (img.height : ℚ) := by
        rw [div_le_iff₀ hpf]
        exact le_trans h6 hres.2
      have hmx0 : (0:ℚ) ≤ ((findTopCrop cs).rect.max.x : ℚ) := by
        exact_mod_cast le_trans h1 h2
      have hmy0 : (0:ℚ) ≤ ((findTopCrop cs).rect.max.y : ℚ) := by
        exact_mod_cast le_trans h4 h5
      refine ⟨goTrunc_nonneg (div_nonneg (by exact_mod_cast h1) hpf.le),
        goTrunc_le_intCast (by exact_mod_cast hminxW),
        goTrunc_nonneg (div_nonneg hmx0 hpf.le),
        goTrunc_le_intCast (by exact_mod_cast hmaxxW),
        goTrunc_nonneg (div_nonneg (by exact_mod_cast h4) hpf.le),
        goTrunc_le_intCast (by exact_mod_cast hminyH),
        goTrunc_nonneg (div_nonneg hmy0 hpf.le),
        goTrunc_le_intCast (by exact_mod_cast hmaxyH)⟩
    · -- no prescale: the working image is the source image itself
      have hwid : pre.rgba = img := by
        rw [hpre]
        unfold preprocessForAnalysis
        dsimp only
        rw [if_neg (by assumption)]
      rw [hwid] at h3 h6
      refine ⟨h1, ?_, le_trans h1 h2, ?_, h4, ?_, le_trans h4 h5, ?_⟩
      · exact le_trans h2 (by exact_mod_cast h3)
      · exact_mod_cast h3
      · exact le_trans h5 (by exact_mod_cast h6)
      · exact_mod_cast h6
  obtain ⟨g1, g2, g3, g4, g5, g6, g7, g8⟩ := hR
  exact ⟨canon_canonical _, canon_bounds g1 g2 g3 g4 g5 g6 g7 g8⟩

/-- C3 witness: in the `cfgPos` scenario the returned crop `(0,0)-(4,4)` is
canonical and contained in the 4×4 source image. -/
theorem C3_best_crop_canonical_contained_witness :
    (¬((4 : ℤ) = 0 ∧ (4 : ℤ) = 0) ∧ (0 : ℤ) ≤ 4 ∧ (0 : ℤ) ≤ 4 ∧
      0 < imgCE.width ∧ 0 < imgCE.height ∧
      0 ≤ cfgPos.MinScale ∧ 0 ≤ cfgPos.MaxScale ∧ 0 < cfgPos.PrescaleMin ∧
      (((preprocessForAnalysis idResizer cfgPos imgCE 4 4).rgba.width : ℚ) ≤
          (imgCE.width : ℚ) * (preprocessForAnalysis idResizer cfgPos imgCE 4 4).pf) ∧
      (((preprocessForAnalysis idResizer cfgPos imgCE 4 4).rgba.height : ℚ) ≤
          (imgCE.height : ℚ) * (preprocessForAnalysis idResizer cfgPos imgCE 4 4).pf)) ∧
    (((findBestCrop sqrtFloor idResizer noFaces cfgPos imgCE 4 4).1.min.x ≤
        (findBestCrop sqrtFloor idResizer noFaces cfgPos imgCE 4 4).1.max.x ∧
      (findBestCrop sqrtFloor idResizer noFaces cfgPos imgCE 4 4).1.min.y ≤
        (findBestCrop sqrtFloor idResizer noFaces cfgPos imgCE 4 4).1.max.y) ∧
    0 ≤ (findBestCrop sqrtFloor idResizer noFaces cfgPos imgCE 4 4).1.min.x ∧
    (findBestCrop sqrtFloor idResizer noFaces cfgPos imgCE 4 4).1.max.x ≤ (imgCE.width : ℤ) ∧
    0 ≤ (findBestCrop sqrtFloor idResizer noFaces cfgPos imgCE 4 4).1.min.y ∧
    (findBestCrop sqrtFloor idResizer noFaces cfgPos imgCE 4 4).1.max.y ≤ (imgCE.height : ℤ)) := by
  have hres1 : (((preprocessForAnalysis idResizer cfgPos imgCE 4 4).rgba.width : ℚ) ≤
      (imgCE.width : ℚ) * (preprocessForAnalysis idResizer cfgPos imgCE 4 4).pf) := by
    norm_num [preprocessForAnalysis, scaleFor, cfgPos, cfgCE, imgCE, idResizer]
  have hres2 : (((preprocessForAnalysis idResizer cfgPos imgCE 4 4).rgba.height : ℚ) ≤
      (imgCE.height : ℚ) * (preprocessForAnalysis idResizer cfgPos imgCE 4 4).pf) := by
    norm_num [preprocessForAnalysis, scaleFor, cfgPos, cfgCE, imgCE, idResizer]
  refine ⟨⟨by decide, by decide, by decide, by decide, by decide,
    by norm_num [cfgPos, cfgCE], by norm_num [cfgPos, cfgCE],
    by norm_num [cfgPos, cfgCE], hres1, hres2⟩, ?_⟩
  exact C3_best_crop_canonical_contained sqrtFloor idResizer noFaces cfgPos
    imgCE 4 4 (by decide) (by decide) (by decide) (by decide) (by decide)
    (by norm_num [cfgPos, cfgCE]) (by norm_num [cfgPos, cfgCE])
    (by norm_num [cfgPos, cfgCE]) ⟨hres1, hres2⟩

/-- C6: with positive position/scale steps, a nonnegative minimum scale and
nonnegative crop dimensions, the generator's loop nest enumerates exactly the
spec's sweep: scales `maxScale - k·scaleStep ≥ realMinScale` in descending
order, `y = j·step` while `y + cropHeight·scale ≤ imageHeight`, `x = l·step`
analogously, one rectangle `[x, y, x+⌊cropW·scale⌋, y+⌊cropH·scale⌋)` per
`(scale, x, y)`; and a caller target dimension of `0` makes the corresponding
computed crop dimension `0`, which the generator replaces by
`min(imageWidth, imageHeight)`. -/
theorem C6_generator_enumeration (i : Image) (cropWidth cropHeight rms : ℚ)
    (cfg : Config) (hst : 0 < cfg.Step) (hss : 0 < cfg.ScaleStep)
    (hrms : 0 ≤ rms) (hcw : 0 ≤ cropWidth) (hch : 0 ≤ cropHeight) :
    crops i cropWidth cropHeight rms cfg = cropsSpec i cropWidth cropHeight rms cfg ∧
    (∀ (resizer : Image → ℕ → ℕ → Image) (img : Image) (h' : ℤ),
      (preprocessForAnalysis resizer cfg img 0 h').cropWidth = 0) ∧
    (∀ (resizer : Image → ℕ → ℕ → Image) (img : Image) (w' : ℤ),
      (preprocessForAnalysis resizer cfg img w' 0).cropHeight = 0) := by
  refine ⟨?_, ?_, ?_⟩
  · unfold crops cropsSpec
    dsimp only
    rw [loopScales_eq_range _ _ _ hss, List.flatMap_map]
    apply flatMap_congr_mem
    intro k hk
    have hscale : rms ≤ cfg.MaxScale - (k : ℚ) * cfg.ScaleStep := by
      have hk' : (k : ℤ) < ⌊(cfg.MaxScale - rms) / cfg.ScaleStep⌋ + 1 := by
        have := List.mem_range.mp hk
        omega
      have hk2 : ((k : ℤ) : ℚ) ≤ (cfg.MaxScale - rms) / cfg.ScaleStep := by
        calc ((k : ℤ) : ℚ) ≤ (⌊(cfg.MaxScale - rms) / cfg.ScaleStep⌋ : ℚ) := by
              exact_mod_cast Int.lt_add_one_iff.mp hk'
          _ ≤ (cfg.MaxScale - rms) / cfg.ScaleStep := Int.floor_le _
      have := (le_div_iff₀ hss).mp hk2
      push_cast at this ⊢
      linarith
    have hs0 : 0 ≤ cfg.MaxScale - (k : ℚ) * cfg.ScaleStep := le_trans hrms hscale
    set scale := cfg.MaxScale - (k : ℚ) * cfg.ScaleStep with hsdef
    set minDimension : ℚ := min (i.width : ℚ) (i.height : ℚ) with hmd
    have hmd0 : 0 ≤ minDimension := le_min (by positivity) (by positivity)
    set cropW := if cropWidth ≠ 0 then cropWidth else minDimension with hcwdef
    set cropH := if cropHeight ≠ 0 then cropHeight else minDimension with hchdef
    have hcw0 : 0 ≤ cropW := by
      rw [hcwdef]; split_ifs <;> assumption
    have hch0 : 0 ≤ cropH := by
      rw [hchdef]; split_ifs <;> assumption
    rw [loopPos_eq_range 0 (i.height : ℚ) (cropH * scale) cfg.Step hst,
      List.flatMap_map]
    have hycount : (⌊((i.height : ℚ) - cropH * scale - ((0 : ℤ) : ℚ)) /
        (cfg.Step : ℚ)⌋ + 1).toNat =
        (⌊((i.height : ℚ) - cropH * scale) / (cfg.Step : ℚ)⌋ + 1).toNat := by
      norm_num
    rw [hycount]
    apply flatMap_congr_mem
    intro j _
    rw [loopPos_eq_range 0 (i.width : ℚ) (cropW * scale) cfg.Step hst,
      List.map_map]
    have hxcount : (⌊((i.width : ℚ) - cropW * scale - ((0 : ℤ) : ℚ)) /
        (cfg.Step : ℚ)⌋ + 1).toNat =
        (⌊((i.width : ℚ) - cropW * scale) / (cfg.Step : ℚ)⌋ + 1).toNat := by
      norm_num
    rw [hxcount]
    apply List.map_congr_left
    intro l _
    simp only [Function.comp_apply]
    have htw : 0 ≤ goTrunc (cropW * scale) := goTrunc_nonneg (mul_nonneg hcw0 hs0)
    have hth : 0 ≤ goTrunc (cropH * scale) := goTrunc_nonneg (mul_nonneg hch0 hs0)
    rw [goRect_of_le (by omega) (by omega)]
    rw [goTrunc_eq_floor (mul_nonneg hcw0 hs0), goTrunc_eq_floor (mul_nonneg hch0 hs0)]
    simp [zero_add]
  · intro resizer img h'
    unfold preprocessForAnalysis
    dsimp only
    norm_num [chop, goTrunc]
  · intro resizer img w'
    unfold preprocessForAnalysis
    dsimp only
    norm_num [chop, goTrunc]

/-- C6 witness at a concrete image and configuration. -/
theorem C6_generator_enumeration_witness :
    ((0 : ℤ) < cfgPos.Step ∧ 0 < cfgPos.ScaleStep ∧ (0 : ℚ) ≤ 1 ∧
      (0 : ℚ) ≤ 4 ∧ (0 : ℚ) ≤ 4) ∧
    (crops imgCE 4 4 1 cfgPos = cropsSpec imgCE 4 4 1 cfgPos ∧
    (∀ (resizer : Image → ℕ → ℕ → Image) (img : Image) (h' : ℤ),
      (preprocessForAnalysis resizer cfgPos img 0 h').cropWidth = 0) ∧
    (∀ (resizer : Image → ℕ → ℕ → Image) (img : Image) (w' : ℤ),
      (preprocessForAnalysis resizer cfgPos img w' 0).cropHeight = 0)) := by
  refine ⟨⟨by norm_num [cfgPos, cfgCE], by norm_num [cfgPos, cfgCE],
    by norm_num, by norm_num, by norm_num⟩, ?_⟩
  exact C6_generator_enumeration imgCE 4 4 1 cfgPos
    (by norm_num [cfgPos, cfgCE]) (by norm_num [cfgPos, cfgCE])
    (by norm_num) (by norm_num) (by norm_num)

/-- C7: the edge extractor writes into its channel, for every interior pixel,
the clamped Laplacian `4·luma(x,y) − luma(x,y−1) − luma(x−1,y) − luma(x+1,y)
− luma(x,y+1)` of the per-pixel luma array, and `0` for every border pixel;
the luma is `0.0722·R + 0.7152·G + 0.5126·B`. -/
theorem C7_edge_laplacian (i o : Image) (x y : ℕ)
    (hx : x < i.width) (hy : y < i.height) (hox : x < o.width) (hoy : y < o.height) :
    (((edgeDetect i o).pix x y).g =
      if x = 0 ∨ x ≥ i.width - 1 ∨ y = 0 ∨ y ≥ i.height - 1 then 0
      else goUint8 (bounds (cie (rgbaAt i x y) * 4 - cie (rgbaAt i x (y - 1)) -
        cie (rgbaAt i (x - 1) y) - cie (rgbaAt i (x + 1) y) -
        cie (rgbaAt i x (y + 1))))) ∧
    (∀ c : RGBA, cie c =
      722/10000 * (c.r : ℚ) + 7152/10000 * (c.g : ℚ) + 5126/10000 * (c.b : ℚ)) := by
  constructor
  · unfold edgeDetect
    dsimp only
    rw [if_pos ⟨hx, hy, hox, hoy⟩]
    by_cases hb : x = 0 ∨ x ≥ i.width - 1 ∨ y = 0 ∨ y ≥ i.height - 1
    · rw [if_pos hb, if_pos hb]
      show goUint8 (bounds 0) = 0
      norm_num [goUint8, bounds]
    · rw [if_neg hb, if_neg hb]
      push_neg at hb
      obtain ⟨hb1, hb2, hb3, hb4⟩ := hb
      have e1 : (makeCies i).getD (y * i.width + x) 0 = cie (rgbaAt i x y) :=
        makeCies_getD i x y hx hy
      have e2 : (makeCies i).getD (x + (y - 1) * i.width) 0 = cie (rgbaAt i x (y - 1)) := by
        rw [Nat.add_comm]
        exact makeCies_getD i x (y - 1) hx (by omega)
      have e3 : (makeCies i).getD (x - 1 + y * i.width) 0 = cie (rgbaAt i (x - 1) y) := by
        rw [Nat.add_comm]
        exact makeCies_getD i (x - 1) y (by omega) hy
      have e4 : (makeCies i).getD (x + 1 + y * i.width) 0 = cie (rgbaAt i (x + 1) y) := by
        rw [Nat.add_comm]
        exact makeCies_getD i (x + 1) y (by omega) hy
      have e5 : (makeCies i).getD (x + (y + 1) * i.width) 0 = cie (rgbaAt i x (y + 1)) := by
        rw [Nat.add_comm]
        exact makeCies_getD i x (y + 1) hx (by omega)
      rw [e1, e2, e3, e4, e5]
  · intro c
    unfold cie
    ring

/-- C7 witness at the interior pixel `(1,1)` of a 3×3 image. -/
theorem C7_edge_laplacian_witness :
    (1 < img3.width ∧ 1 < img3.height ∧
      1 < (newRGBA 3 3).width ∧ 1 < (newRGBA 3 3).height) ∧
    ((((edgeDetect img3 (newRGBA 3 3)).pix 1 1).g =
      if (1 : ℕ) = 0 ∨ 1 ≥ img3.width - 1 ∨ (1 : ℕ) = 0 ∨ 1 ≥ img3.height - 1 then 0
      else goUint8 (bounds (cie (rgbaAt img3 1 1) * 4 - cie (rgbaAt img3 1 (1 - 1)) -
        cie (rgbaAt img3 (1 - 1) 1) - cie (rgbaAt img3 (1 + 1) 1) -
        cie (rgbaAt img3 1 (1 + 1))))) ∧
    (∀ c : RGBA, cie c =
      722/10000 * (c.r : ℚ) + 7152/10000 * (c.g : ℚ) + 5126/10000 * (c.b : ℚ))) :=
  ⟨⟨by decide, by decide, by decide, by decide⟩,
    C7_edge_laplacian img3 (newRGBA 3 3) 1 1 (by decide) (by decide)
      (by decide) (by decide)⟩

/-- C9 counterexample: the edge extractor does not leave the other channels
of the output buffer unchanged — it overwrites red (and blue) with `0`.  On a
1×1 buffer whose red channel is `7`, the pixel's red channel afterwards is
`0`. -/
theorem C9_counterexample :
    ((edgeDetect imgOne bufOne).pix 0 0).r = 0 ∧ (bufOne.pix 0 0).r = 7 :=
  ⟨rfl, rfl⟩

/-- C9 (amended): the skin and saturation extractors write only their own
feature channel (plus alpha, forced to 255), leaving the other two feature
channels of every pixel unchanged, and the value they write depends only on
the source buffer; the edge extractor computes its channel from the source
buffer alone but overwrites the other two feature channels with 0 (and alpha
with 255). -/
theorem C9_extractor_frame_effects (sqrtQ : ℚ → ℚ) (cfg : Config)
    (i o : Image) (x y : ℕ)
    (hx : x < i.width) (hy : y < i.height) (hox : x < o.width) (hoy : y < o.height) :
    (((skinDetect sqrtQ cfg i o).pix x y).g = (o.pix x y).g ∧
      ((skinDetect sqrtQ cfg i o).pix x y).b = (o.pix x y).b ∧
      ((skinDetect sqrtQ cfg i o).pix x y).r = skinValue sqrtQ cfg i x y ∧
      ((skinDetect sqrtQ cfg i o).pix x y).a = 255) ∧
    (((saturationDetect cfg i o).pix x y).r = (o.pix x y).r ∧
      ((saturationDetect cfg i o).pix x y).g = (o.pix x y).g ∧
      ((saturationDetect cfg i o).pix x y).b = satValue cfg i x y ∧
      ((saturationDetect cfg i o).pix x y).a = 255) ∧
    (((edgeDetect i o).pix x y).g = edgeValue i x y ∧
      ((edgeDetect i o).pix x y).r = 0 ∧
      ((edgeDetect i o).pix x y).b = 0 ∧
      ((edgeDetect i o).pix x y).a = 255) := by
  have hco : rgbaAt o x y = o.pix x y := by
    unfold rgbaAt
    rw [if_pos ⟨hox, hoy⟩]
  refine ⟨?_, ?_, ?_⟩
  · unfold skinDetect skinValue
    dsimp only
    rw [if_pos ⟨hx, hy, hox, hoy⟩, hco]
    refine ⟨?_, ?_, ?_, ?_⟩ <;> split <;> rfl
  · unfold saturationDetect satValue
    dsimp only
    rw [if_pos ⟨hx, hy, hox, hoy⟩, hco]
    refine ⟨?_, ?_, ?_, ?_⟩ <;> split <;> rfl
  · unfold edgeDetect edgeValue
    dsimp only
    rw [if_pos ⟨hx, hy, hox, hoy⟩]
    exact ⟨rfl, rfl, rfl, rfl⟩

/-- C9 witness at the pixel `(0,0)` of a 1×1 source and buffer. -/
theorem C9_extractor_frame_effects_witness :
    ((0 : ℕ) < imgOne.width ∧ (0 : ℕ) < imgOne.height ∧
      (0 : ℕ) < bufOne.width ∧ (0 : ℕ) < bufOne.height) ∧
    ((((skinDetect sqrtFloor cfgPos imgOne bufOne).pix 0 0).g = (bufOne.pix 0 0).g ∧
      ((skinDetect sqrtFloor cfgPos imgOne bufOne).pix 0 0).b = (bufOne.pix 0 0).b ∧
      ((skinDetect sqrtFloor cfgPos imgOne bufOne).pix 0 0).r =
        skinValue sqrtFloor cfgPos imgOne 0 0 ∧
      ((skinDetect sqrtFloor cfgPos imgOne bufOne).pix 0 0).a = 255) ∧
    (((saturationDetect cfgPos imgOne bufOne).pix 0 0).r = (bufOne.pix 0 0).r ∧
      ((saturationDetect cfgPos imgOne bufOne).pix 0 0).g = (bufOne.pix 0 0).g ∧
      ((saturationDetect cfgPos imgOne bufOne).pix 0 0).b =
        satValue cfgPos imgOne 0 0 ∧
      ((saturationDetect cfgPos imgOne bufOne).pix 0 0).a = 255) ∧
    (((edgeDetect imgOne bufOne).pix 0 0).g = edgeValue imgOne 0 0 ∧
      ((edgeDetect imgOne bufOne).pix 0 0).r = 0 ∧
      ((edgeDetect imgOne bufOne).pix 0 0).b = 0 ∧
      ((edgeDetect imgOne bufOne).pix 0 0).a = 255)) :=
  ⟨⟨by decide, by decide, by decide, by decide⟩,
    C9_extractor_frame_effects sqrtFloor cfgPos imgOne bufOne 0 0
      (by decide) (by decide) (by decide) (by decide)⟩

end Smartcrop
